import Mathlib

/-!
Shallow embedding of the multi-game leaderboard core (Turbostarow/LB_v2):
the command parser and rank ordering (src/parser.js), the state codec and
merge engine (storage.js), and the per-cycle merge loop (sync.js).

JavaScript strings are modelled as `List Char`; the handful of host string
operations the source uses (`trim`, `split`, `indexOf`, `substring`,
`parseInt`, template-literal number rendering) are reimplemented below with
JavaScript semantics.  JavaScript numbers that can be `NaN` are modelled as
`Option Int` with `none` standing for `NaN`.
-/

set_option maxRecDepth 20000

namespace LB

/-- Convert a Lean string literal to the `List Char` representation used
throughout the embedding. -/
def str (s : String) : List Char := s.toList

/-- Whitespace class used by `trim` and `split(/\s+/)` (the characters the
source's inputs can actually contain). -/
def isWS (c : Char) : Bool :=
  c = ' ' || c = '\t' || c = '\n' || c = '\r' || c = '\x0b' || c = '\x0c'

/-- Drop leading whitespace, as in the left half of `String.prototype.trim`. -/
def jsTrimLeft : List Char → List Char
  | [] => []
  | c :: t => if isWS c then jsTrimLeft t else c :: t

/-- Drop trailing whitespace. -/
def jsTrimRight (s : List Char) : List Char :=
  (jsTrimLeft s.reverse).reverse

/-- JavaScript `trim`. -/
def jsTrim (s : List Char) : List Char :=
  jsTrimRight (jsTrimLeft s)

/-- JavaScript `split` with a single-character separator: always returns at
least one (possibly empty) piece, keeps empty pieces. -/
def jsSplitOn (sep : Char) : List Char → List (List Char)
  | [] => [[]]
  | c :: t =>
    if c = sep then [] :: jsSplitOn sep t
    else
      match jsSplitOn sep t with
      | r :: rs => (c :: r) :: rs
      | [] => [[c]]

/-- JavaScript `Array.prototype.join` with a single-character separator. -/
def joinSep (sep : Char) : List (List Char) → List Char
  | [] => []
  | [a] => a
  | a :: b :: t => a ++ sep :: joinSep sep (b :: t)

mutual

/-- State of `split(/\s+/)` while inside a token (`cur` holds the reversed
token built so far). -/
def splitWSGo : List Char → List Char → List (List Char)
  | [], cur => [cur.reverse]
  | c :: t, cur =>
    if isWS c then cur.reverse :: splitWSSkip t
    else splitWSGo t (c :: cur)

/-- State of `split(/\s+/)` while consuming a whitespace run. -/
def splitWSSkip : List Char → List (List Char)
  | [] => [[]]
  | c :: t => if isWS c then splitWSSkip t else splitWSGo t [c]

end

/-- JavaScript `split(/\s+/)`: separators are maximal whitespace runs; a
leading or trailing run contributes an empty piece, and the empty string
yields `[""]`. -/
def splitWS (s : List Char) : List (List Char) :=
  splitWSGo s []

/-- Boolean string-prefix test (JavaScript `startsWith`). -/
def begWith : List Char → List Char → Bool
  | [], _ => true
  | _ :: _, [] => false
  | a :: as, b :: bs => if a = b then begWith as bs else false

/-- JavaScript `indexOf` for strings: index of the first occurrence of
`needle`, `none` for `-1`. -/
def jsIndexOf (needle hay : List Char) : Option Nat :=
  if begWith needle hay then some 0
  else
    match hay with
    | [] => none
    | _ :: t => (jsIndexOf needle t).map (· + 1)

/-- JavaScript `includes`. -/
def jsIncludes (needle hay : List Char) : Bool :=
  (jsIndexOf needle hay).isSome

/-- JavaScript `substring(a, b)`: clamps both ends to the string and swaps
them when `a > b`. -/
def jsSubstring (a b : Nat) (s : List Char) : List Char :=
  let lo := min a b
  let hi := max a b
  (s.drop lo).take (hi - lo)

/-- Decimal digit test. -/
def isDig (c : Char) : Bool :=
  decide (48 ≤ c.toNat) && decide (c.toNat ≤ 57)

/-- Numeric value of a decimal digit character. -/
def charVal (c : Char) : Nat := c.toNat - 48

/-- The decimal digit character for `d` (callers keep `d < 10`). -/
def digitChar : Nat → Char
  | 0 => '0' | 1 => '1' | 2 => '2' | 3 => '3' | 4 => '4'
  | 5 => '5' | 6 => '6' | 7 => '7' | 8 => '8' | _ => '9'

/-- Fuel-driven digit rendering (structural recursion so that the kernel
can evaluate it; the fuel is always sufficient when `n < fuel`). -/
def natToStrAux : Nat → Nat → List Char
  | 0, _ => []
  | fuel + 1, n =>
    if n < 10 then [digitChar n]
    else natToStrAux fuel (n / 10) ++ [digitChar (n % 10)]

/-- Decimal rendering of a natural number, as JavaScript renders
non-negative integers. -/
def natToStr (n : Nat) : List Char :=
  natToStrAux (n + 1) n

/-- Value of a digit string (callers only use it on all-digit lists). -/
def digitsToNat (ds : List Char) : Nat :=
  ds.foldl (fun a c => a * 10 + charVal c) 0

/-- The maximal leading digit run, `none` when it is empty (JavaScript
`parseInt` yields `NaN` then). -/
def parseDigitsPre (s : List Char) : Option Nat :=
  let ds := s.takeWhile isDig
  if ds.isEmpty then none else some (digitsToNat ds)

/-- JavaScript `parseInt(s, 10)`: skip leading whitespace, optional sign,
then the maximal digit prefix; `none` models `NaN`. -/
def jsParseInt (s : List Char) : Option Int :=
  match jsTrimLeft s with
  | [] => none
  | c :: rest =>
    if c = '-' then (parseDigitsPre rest).map (fun n => -(n : Int))
    else if c = '+' then (parseDigitsPre rest).map (fun n => (n : Int))
    else (parseDigitsPre (c :: rest)).map (fun n => (n : Int))

/-- Template-literal rendering of a JavaScript number modelled as
`Option Int` (`none` renders as `"NaN"`). -/
def numToStr : Option Int → List Char
  | none => str "NaN"
  | some i => if i < 0 then '-' :: natToStr (-i).toNat else natToStr i.toNat

/-- Case-insensitive string equality (JavaScript
`a.toLowerCase() === b.toLowerCase()`; the rank names are ASCII). -/
def lowerEq (a b : List Char) : Bool :=
  decide (a.map Char.toLower = b.map Char.toLower)

/-- Days from the Unix epoch to civil date `y-m-d` (proleptic Gregorian,
valid for `y ≥ -400`); the standard era-based formula, computed in `Nat`
after shifting the year by 400 (exactly 146097 days). -/
def civilDays (y : Int) (m d : Nat) : Int :=
  let y2 : Int := if m ≤ 2 then y - 1 else y
  let yn : Nat := (y2 + 400).toNat
  let era : Nat := yn / 400
  let yoe : Nat := yn % 400
  let mp : Nat := (m + 9) % 12
  let doy : Nat := (153 * mp + 2) / 5 + d - 1
  let doe : Nat := yoe * 365 + yoe / 4 - yoe / 100 + doy
  (era : Int) * 146097 + (doe : Int) - 146097 - 719468

/-- Inverse of `civilDays`: the civil date of a day count from the epoch
(valid for years `≥ -400`). -/
def civilOfDays (z : Int) : Int × Nat × Nat :=
  let zn : Nat := (z + 719468 + 146097).toNat
  let era : Nat := zn / 146097
  let doe : Nat := zn % 146097
  let yoe : Nat := (doe - doe / 1460 + doe / 36524 - doe / 146096) / 365
  let y : Nat := yoe + era * 400
  let doy : Nat := doe - (365 * yoe + yoe / 4 - yoe / 100)
  let mp : Nat := (5 * doy + 2) / 153
  let d : Nat := doy - (153 * mp + 2) / 5 + 1
  let m : Nat := if mp < 10 then mp + 3 else mp - 9
  ((y : Int) - 400 + (if m ≤ 2 then 1 else 0), m, d)

/-- Read exactly `k` decimal digits from the front of `s`. -/
def readDigits (s : List Char) (k : Nat) : Option (Nat × List Char) :=
  let ds := s.take k
  if ds.length = k && ds.all isDig then some (digitsToNat ds, s.drop k)
  else none

/-- Expect the character `c` at the front of `s`. -/
def expectChar (c : Char) : List Char → Option (List Char)
  | [] => none
  | x :: r => if x = c then some r else none

/-- Parse the time-of-day tail `HH:MM:SS(.mmm)?Z` and return milliseconds
into the day. -/
def parseTimeTail (s : List Char) : Option Nat := do
  let (hh, r1) ← readDigits s 2
  let r2 ← expectChar ':' r1
  let (mm, r3) ← readDigits r2 2
  let r4 ← expectChar ':' r3
  let (ss, r5) ← readDigits r4 2
  if hh ≤ 23 && mm ≤ 59 && ss ≤ 59 then
    match r5 with
    | [] => none
    | 'Z' :: r6 => if r6.isEmpty then some ((hh * 3600 + mm * 60 + ss) * 1000) else none
    | '.' :: r6 => do
        let (ms, r7) ← readDigits r6 3
        let r8 ← expectChar 'Z' r7
        if r8.isEmpty then some ((hh * 3600 + mm * 60 + ss) * 1000 + ms) else none
    | _ => none
  else none

/-- Milliseconds since the Unix epoch of a date string, modelling the host
`new Date(s).getTime()` on the ISO-8601 grammar this system stores
(`YYYY-MM-DD`, optionally followed by `THH:MM:SS(.mmm)?Z`); other inputs
give `none` (an invalid date).  The host accepts a broader, underspecified
set of strings (spec §9 flags this); the claims only need the ISO subset. -/
def dateValMs (s : List Char) : Option Int := do
  let (y, r1) ← readDigits s 4
  let r2 ← expectChar '-' r1
  let (m, r3) ← readDigits r2 2
  let r4 ← expectChar '-' r3
  let (d, r5) ← readDigits r4 2
  if 1 ≤ m && m ≤ 12 && 1 ≤ d && d ≤ 31 then
    match r5 with
    | [] => some (civilDays (y : Int) m d * 86400000)
    | 'T' :: r6 => (parseTimeTail r6).map fun t => civilDays (y : Int) m d * 86400000 + (t : Int)
    | _ => none
  else none

/-- Left-pad a decimal rendering with zeros to width `w`. -/
def padNum (w : Nat) (n : Nat) : List Char :=
  let s := natToStr n
  List.replicate (w - s.length) '0' ++ s

/-- Render a millisecond timestamp as the host `Date.prototype.toISOString`
does (`YYYY-MM-DDTHH:MM:SS.sssZ`). -/
def msToIso (ms : Int) : List Char :=
  let day := Int.fdiv ms 86400000
  let tms := (ms - day * 86400000).toNat
  let c := civilOfDays day
  let y := c.1
  let m := c.2.1
  let d := c.2.2
  padNum 4 y.toNat ++ '-' :: padNum 2 m ++ '-' :: padNum 2 d ++
    'T' :: padNum 2 (tms / 3600000) ++ ':' :: padNum 2 (tms / 60000 % 60) ++
    ':' :: padNum 2 (tms / 1000 % 60) ++ '.' :: padNum 3 (tms % 1000) ++ ['Z']

/-! ## Data model

A single record type hosts both parsed updates and decoded/stored players,
as the dynamically-typed source passes the same objects through parsing,
merging, the codec and the sort.  Fields a given flow does not set are
`none` (JavaScript `undefined`). -/

/-- A rank: a name plus a tier.  The tier is `Option Int` because decoding
can produce a `NaN` tier (modelled as `none`). -/
structure Rank where
  rank : List Char
  tier : Option Int
deriving DecidableEq, Repr

/-- A player record / parsed update. -/
structure Player where
  userId : List Char := []
  role : Option (List Char) := none
  heroName : Option (List Char) := none
  currentRank : Option Rank := none
  currentValue : Option Int := none
  peakRank : Option Rank := none
  peakValue : Option Int := none
  lastUpdated : List Char := []
  game : Option (List Char) := none
  rawMention : Option (List Char) := none
deriving DecidableEq, Repr, Inhabited

/-- Game-type literals used by the source's string comparisons. -/
def gameMR : List Char := str "MARVEL_RIVALS"

/-- Overwatch game-type literal. -/
def gameOW : List Char := str "OVERWATCH"

/-- Deadlock game-type literal. -/
def gameDL : List Char := str "DEADLOCK"

/-! ## parser.js -/

/-- Rank ladder for Marvel Rivals (worst to best). -/
def MARVEL_RIVALS_RANKS : List (List Char) :=
  [str "Bronze", str "Silver", str "Gold", str "Platinum", str "Diamond",
   str "Grandmaster", str "Celestial", str "Eternity", str "One Above All"]

/-- Rank ladder for Overwatch. -/
def OVERWATCH_RANKS : List (List Char) :=
  [str "Bronze", str "Silver", str "Gold", str "Platinum", str "Diamond",
   str "Master", str "Grandmaster", str "Champion", str "Top 500"]

/-- Rank ladder for Deadlock. -/
def DEADLOCK_RANKS : List (List Char) :=
  [str "Initiate", str "Seeker", str "Alchemist", str "Arcanist", str "Ritualist",
   str "Emissary", str "Archon", str "Oracle", str "Phantom Ascendant", str "Eternus"]

/-- Try the mention pattern `<@!?(\d+)>` at the start of `s`; returns the
captured digits. -/
def mentionAt : List Char → Option (List Char)
  | '<' :: '@' :: r =>
    let r2 := match r with
      | '!' :: r3 => r3
      | _ => r
    let ds := r2.takeWhile isDig
    if ds.isEmpty then none
    else
      match r2.drop ds.length with
      | '>' :: _ => some ds
      | _ => none
  | _ => none

/-- `extractUserId`: first match of `/<@!?(\d+)>/` anywhere in the string,
returning the captured numeric id. -/
def extractUserId (mention : List Char) : Option (List Char) :=
  match mentionAt mention with
  | some ds => some ds
  | none =>
    match mention with
    | [] => none
    | _ :: t => extractUserId t

/-- Characters removed by `sanitize` (the set `[<>'"`;()]`; the quote and
backtick are written by code point). -/
def badSanChar (c : Char) : Bool :=
  c = '<' || c = '>' || c = Char.ofNat 39 || c = '"' ||
  c = Char.ofNat 96 || c = ';' || c = '(' || c = ')'

/-- `sanitize`: strip the disallowed characters, trim, cap at 200. -/
def sanitize (t : List Char) : List Char :=
  (jsTrim (t.filter (fun c => !badSanChar c))).take 200

/-- `parseDate`: host `new Date(s)` then `toISOString`; `none` on an
invalid date. -/
def parseDate (s : List Char) : Option (List Char) :=
  (dateValMs s).map msToIso

/-- The tier token examined after the matched rank phrase: `none` models
both a missing/empty token (tier stays null) and a non-numeric one
(`parseInt` gives `NaN`), which the source treats identically (falsy). -/
def rankTierTok : Option (List Char) → Option Int
  | none => none
  | some [] => none
  | some t => jsParseInt t

/-- The countdown loop of `parseRankWithTier`: try the longest token
prefix first; on the first (longest) case-insensitive match return the
canonical name from `validRanks` and the token right after the phrase. -/
def rankLoop (parts validRanks : List (List Char)) : Nat → Option (List Char × Option Int)
  | 0 => none
  | i + 1 =>
    let candidate := joinSep ' ' (parts.take (i + 1))
    if validRanks.any (fun r => lowerEq r candidate) then
      some ((validRanks.find? (fun r => lowerEq r candidate)).getD [],
            rankTierTok (parts.get? (i + 1)))
    else rankLoop parts validRanks i

/-- `parseRankWithTier`: multi-word rank recognition plus tier validation.
A truthy out-of-range tier is reset to null; null/`NaN`/`0` tiers default
to 1 (`tier || 1`). -/
def parseRankWithTier (rankString : List Char) (validRanks : List (List Char))
    (maxTier : Int) : Option Rank :=
  let parts := splitWS (jsTrim rankString)
  match rankLoop parts validRanks parts.length with
  | none => none
  | some (rankName, tier0) =>
    let tier1 : Option Int :=
      match tier0 with
      | some t => if t ≠ 0 ∧ (t < 1 ∨ t > maxTier) then none else some t
      | none => none
    let tierF : Int :=
      match tier1 with
      | some t => if t = 0 then 1 else t
      | none => 1
    some { rank := rankName, tier := some tierF }

/-- `getRankSortValue`: `999999` for an absent or unrecognized rank,
otherwise `rankIndex * maxTier + (maxTier - tier + 1)`; a `NaN` tier makes
the whole key `NaN` (`none`). -/
def getRankSortValue (rankObj : Option Rank) (validRanks : List (List Char))
    (maxTier : Int) : Option Int :=
  match rankObj with
  | none => some 999999
  | some r =>
    match validRanks.findIdx? (fun v => lowerEq v r.rank) with
    | none => some 999999
    | some idx =>
      match r.tier with
      | some t => some ((idx : Int) * maxTier + (maxTier - t + 1))
      | none => none

/-- Walk the remaining tokens, counting up from `i`, until one parses as a
number. -/
def firstNumIdxAux : List (List Char) → Nat → Nat
  | [], i => i
  | t :: ts, i => if (jsParseInt t).isSome then i else firstNumIdxAux ts (i + 1)

/-- First index `≥ i` whose token parses as a number, or `parts.length`
(the `while (idx < parts.length && isNaN(parseInt(parts[idx])))` scan). -/
def firstNumIdx (parts : List (List Char)) (i : Nat) : Nat :=
  firstNumIdxAux (parts.drop i) i

/-- Command tag for Marvel Rivals. -/
def MR_TAG : List Char := str "LB_UPDATE_MR:"

/-- Command tag for Overwatch. -/
def OW_TAG : List Char := str "LB_UPDATE_OW:"

/-- Command tag for Deadlock. -/
def DL_TAG : List Char := str "LB_UPDATE_DL:"

/-- Shared body of `parseMarvelRivals` and `parseOverwatch`, which are
textually identical in the source apart from the tag, rank table, tier
count and game literal.  Note the current-rank scan: the source seeds
`currentRankParts` with `parts[2]` and then starts the accumulation loop
at index 2 as well, so `parts[2]` enters the joined rank phrase twice. -/
def parseTwoRankUpdate (tag : List Char) (ranks : List (List Char)) (maxTier : Int)
    (gameName : List Char) (mc : List Char) : Option Player :=
  if !begWith tag (jsTrim mc) then none
  else
  let content := jsTrim ((jsTrim mc).drop tag.length)
  let parts := splitWS content
  if parts.length < 7 then none
  else
  let mention := (parts.get? 0).getD []
  match extractUserId mention with
  | none => none
  | some userId =>
  let role := sanitize ((parts.get? 1).getD [])
  let cEnd := firstNumIdx parts 2
  let curParts := ((parts.get? 2).getD []) :: ((parts.drop 2).take (cEnd - 2))
  if parts.length ≤ cEnd then none
  else
  match parseRankWithTier (joinSep ' ' curParts) ranks maxTier with
  | none => none
  | some currentRank =>
  match jsParseInt ((parts.get? cEnd).getD []) with
  | none => none
  | some currentValue =>
  if currentValue < 0 then none
  else
  let pStart := cEnd + 1
  let pEnd := firstNumIdx parts (pStart + 1)
  let pkParts := ((parts.get? pStart).getD []) ::
    ((parts.drop (pStart + 1)).take (pEnd - (pStart + 1)))
  if parts.length ≤ pEnd then none
  else
  match parseRankWithTier (joinSep ' ' pkParts) ranks maxTier with
  | none => none
  | some peakRank =>
  match jsParseInt ((parts.get? pEnd).getD []) with
  | none => none
  | some peakValue =>
  if peakValue < 0 then none
  else
  match parseDate (joinSep ' ' (parts.drop (pEnd + 1))) with
  | none => none
  | some parsedDate =>
  some { userId := userId, role := some role,
         currentRank := some currentRank, currentValue := some currentValue,
         peakRank := some peakRank, peakValue := some peakValue,
         lastUpdated := parsedDate, game := some gameName, rawMention := some mention }

/-- `parseMarvelRivals`. -/
def parseMarvelRivals (mc : List Char) : Option Player :=
  parseTwoRankUpdate MR_TAG MARVEL_RIVALS_RANKS 3 gameMR mc

/-- `parseOverwatch`. -/
def parseOverwatch (mc : List Char) : Option Player :=
  parseTwoRankUpdate OW_TAG OVERWATCH_RANKS 5 gameOW mc

/-- `parseDeadlock`: the single-rank variant (no peak fields). -/
def parseDeadlock (mc : List Char) : Option Player :=
  if !begWith DL_TAG (jsTrim mc) then none
  else
  let content := jsTrim ((jsTrim mc).drop DL_TAG.length)
  let parts := splitWS content
  if parts.length < 5 then none
  else
  let mention := (parts.get? 0).getD []
  match extractUserId mention with
  | none => none
  | some userId =>
  let heroName := sanitize ((parts.get? 1).getD [])
  let cEnd := firstNumIdx parts 2
  let curParts := ((parts.get? 2).getD []) :: ((parts.drop 2).take (cEnd - 2))
  if parts.length ≤ cEnd then none
  else
  match parseRankWithTier (joinSep ' ' curParts) DEADLOCK_RANKS 6 with
  | none => none
  | some currentRank =>
  match jsParseInt ((parts.get? cEnd).getD []) with
  | none => none
  | some currentValue =>
  if currentValue < 0 then none
  else
  match parseDate (joinSep ' ' (parts.drop (cEnd + 1))) with
  | none => none
  | some parsedDate =>
  some { userId := userId, heroName := some heroName,
         currentRank := some currentRank, currentValue := some currentValue,
         lastUpdated := parsedDate, game := some gameDL, rawMention := some mention }

/-- `parseMessage`: route on which command tag the text contains; an empty
string is falsy and returns no result. -/
def parseMessage (mc : List Char) : Option Player :=
  if mc.isEmpty then none
  else if jsIncludes MR_TAG mc then parseMarvelRivals mc
  else if jsIncludes OW_TAG mc then parseOverwatch mc
  else if jsIncludes DL_TAG mc then parseDeadlock mc
  else none

/-- A fetched channel message. -/
structure Message where
  id : List Char
  content : List Char
  createdTimestamp : Int
  author : List Char
deriving DecidableEq, Repr

/-- An entry of `parseMultipleUpdates`'s `successful` partition. -/
structure SuccessfulUpdate where
  messageId : List Char
  timestamp : Int
  author : List Char
  data : Player
deriving DecidableEq, Repr

/-- An entry of the `failed` partition. -/
structure FailedUpdate where
  messageId : List Char
  content : List Char
  reason : List Char
deriving DecidableEq, Repr

/-- Result of `parseMultipleUpdates`. -/
structure ParseResults where
  successful : List SuccessfulUpdate
  failed : List FailedUpdate
  skipped : Nat
deriving DecidableEq, Repr

/-- `parseMultipleUpdates`.  Note: in the source, a message whose
`parseMessage` is null increments `skipped` and `continue`s, so the later
`else` branch that would push onto `failed` can never run; the model
reflects the reachable behaviour (`failed` is never extended). -/
def parseStep (gameType : Option (List Char)) (results : ParseResults)
    (message : Message) : ParseResults :=
  match parseMessage message.content with
  | none => { results with skipped := results.skipped + 1 }
  | some parsed =>
    match gameType with
    | some g =>
      if parsed.game ≠ some g then { results with skipped := results.skipped + 1 }
      else { results with successful := results.successful ++
               [⟨message.id, message.createdTimestamp, message.author, parsed⟩] }
    | none => { results with successful := results.successful ++
               [⟨message.id, message.createdTimestamp, message.author, parsed⟩] }

/-- Fold `parseStep` over the messages starting from the empty result. -/
def parseMultipleUpdates (messages : List Message) (gameType : Option (List Char)) :
    ParseResults :=
  messages.foldl (parseStep gameType) ⟨[], [], 0⟩

/-- One comparison step on a descending key: on two equal numbers fall
through to `next`; on two different numbers return their difference; if
either side is `NaN` the comparator returns `NaN`, which the sort treats
as `0`. -/
def stepDesc (x y : Option Int) (next : Int) : Int :=
  match x, y with
  | some a, some b => if a ≠ b then b - a else next
  | _, _ => 0

/-- One comparison step on an ascending key. -/
def stepAsc (x y : Option Int) (next : Int) : Int :=
  match x, y with
  | some a, some b => if a ≠ b then a - b else next
  | _, _ => 0

/-- Final tiebreaker `new Date(b.lastUpdated) - new Date(a.lastUpdated)`;
an invalid date makes the difference `NaN`, treated as `0`. -/
def dateDesc (a b : Player) : Int :=
  match dateValMs b.lastUpdated, dateValMs a.lastUpdated with
  | some x, some y => x - y
  | _, _ => 0

/-- The two-rank-game comparator of `sortPlayers`. -/
def cmpTwoRank (ranks : List (List Char)) (maxTier : Int) (a b : Player) : Int :=
  stepDesc (getRankSortValue a.currentRank ranks maxTier)
    (getRankSortValue b.currentRank ranks maxTier)
    (stepAsc a.currentValue b.currentValue
      (stepDesc (getRankSortValue a.peakRank ranks maxTier)
        (getRankSortValue b.peakRank ranks maxTier)
        (stepAsc a.peakValue b.peakValue (dateDesc a b))))

/-- The Deadlock comparator of `sortPlayers`. -/
def cmpDL (a b : Player) : Int :=
  stepDesc (getRankSortValue a.currentRank DEADLOCK_RANKS 6)
    (getRankSortValue b.currentRank DEADLOCK_RANKS 6)
    (stepAsc a.currentValue b.currentValue (dateDesc a b))

/-- The full comparator passed to the sort, branching on the game type. -/
def cmpPlayers (gameType : List Char) (a b : Player) : Int :=
  if gameType = gameMR then cmpTwoRank MARVEL_RIVALS_RANKS 3 a b
  else if gameType = gameOW then cmpTwoRank OVERWATCH_RANKS 5 a b
  else if gameType = gameDL then cmpDL a b
  else 0

/-- Stable insertion used to model `Array.prototype.sort` (which is
required to be stable): a later element `a` goes after every earlier
element `b` with `cmp b a ≤ 0`. -/
def insertCmp {α : Type} (cmp : α → α → Int) (a : α) : List α → List α
  | [] => [a]
  | b :: t => if cmp b a ≤ 0 then b :: insertCmp cmp a t else a :: b :: t

/-- Stable sort by a JavaScript comparator.  For a consistent comparator
(the case the claims consider) stability pins the result uniquely, so any
stable algorithm models the host sort. -/
def jsSortBy {α : Type} (cmp : α → α → Int) (l : List α) : List α :=
  l.foldl (fun acc x => insertCmp cmp x acc) []

/-- `sortPlayers`. -/
def sortPlayers (players : List Player) (gameType : List Char) : List Player :=
  if players.isEmpty then []
  else jsSortBy (cmpPlayers gameType) players

/-! ## storage.js -/

/-- The start marker `[DATA:v1]`. -/
def DATA_START_MARKER : List Char := str "[DATA:v1]"

/-- The end marker `[/DATA]`. -/
def DATA_END_MARKER : List Char := str "[/DATA]"

/-- A rank field `"<name> <tier>"` as the encoder renders it. -/
def rankField (r : Rank) : List Char := r.rank ++ ' ' :: numToStr r.tier

/-- The label field with the `|| 'Unknown'` fallback (an absent or empty
label is falsy). -/
def labelStr : Option (List Char) → List Char
  | some r => if r.isEmpty then str "Unknown" else r
  | none => str "Unknown"

/-- One line of `encodePlayerData`.  `none` models the `TypeError` the
source would throw reading `.rank` of a missing rank; an unmatched game
type (which yields `undefined` entries in the source, never produced by
any supported flow) is also `none`. -/
def encodePlayerLine (gameType : List Char) (p : Player) : Option (List Char) :=
  if gameType = gameMR ∨ gameType = gameOW then
    match p.currentRank, p.peakRank with
    | some cr, some pr =>
      some (joinSep '|' [p.userId, labelStr p.role, rankField cr, numToStr p.currentValue,
                         rankField pr, numToStr p.peakValue, p.lastUpdated])
    | _, _ => none
  else if gameType = gameDL then
    match p.currentRank with
    | some cr =>
      some (joinSep '|' [p.userId, labelStr p.heroName, rankField cr,
                         numToStr p.currentValue, p.lastUpdated])
    | none => none
  else none

/-- `encodePlayerData`: one line per player, joined with newlines. -/
def encodePlayerData (players : List Player) (gameType : List Char) : Option (List Char) :=
  (players.mapM (encodePlayerLine gameType)).map (joinSep '\n')

/-- The `LAST:` field value (`lastProcessedMessageId || 'none'`). -/
def lastStr : Option (List Char) → List Char
  | some c => if c.isEmpty then str "none" else c
  | none => str "none"

/-- `encodeState`: the five grammar lines joined with newlines. -/
def encodeState (lastProcessedMessageId : Option (List Char)) (players : List Player)
    (gameType : List Char) : Option (List Char) :=
  (encodePlayerData players gameType).map fun pd =>
    joinSep '\n' [DATA_START_MARKER, str "GAME:" ++ gameType,
                  str "LAST:" ++ lastStr lastProcessedMessageId, pd, DATA_END_MARKER]

/-- Decode one rank sub-field: split on single spaces and destructure the
first two pieces; a missing or non-numeric tier piece is `NaN` (`none`). -/
def mkRank (field : List Char) : Rank :=
  let ps := jsSplitOn ' ' field
  { rank := (ps.get? 0).getD [], tier := (ps.get? 1).bind jsParseInt }

/-- Decode one player line: `null` (dropped) only when there are fewer
pipe-delimited fields than the game requires.  For an unrecognized game
type the source's map yields `undefined` entries which its
`!== null` filter keeps; no supported flow reaches that case and the
model drops them. -/
def decodeLine (gameType : Option (List Char)) (line : List Char) : Option Player :=
  let parts := jsSplitOn '|' line
  if gameType = some gameMR ∨ gameType = some gameOW then
    if parts.length < 7 then none
    else some { userId := (parts.get? 0).getD [], role := some ((parts.get? 1).getD []),
                currentRank := some (mkRank ((parts.get? 2).getD [])),
                currentValue := jsParseInt ((parts.get? 3).getD []),
                peakRank := some (mkRank ((parts.get? 4).getD [])),
                peakValue := jsParseInt ((parts.get? 5).getD []),
                lastUpdated := (parts.get? 6).getD [] }
  else if gameType = some gameDL then
    if parts.length < 5 then none
    else some { userId := (parts.get? 0).getD [], heroName := some ((parts.get? 1).getD []),
                currentRank := some (mkRank ((parts.get? 2).getD [])),
                currentValue := jsParseInt ((parts.get? 3).getD []),
                lastUpdated := (parts.get? 4).getD [] }
  else none

/-- `decodePlayerData`: trim, split into lines, keep non-blank lines, map
`decodeLine`, drop the nulls. -/
def decodePlayerData (dataString : List Char) (gameType : Option (List Char)) : List Player :=
  if (jsTrim dataString).isEmpty then []
  else
    (((jsSplitOn '\n' (jsTrim dataString)).filter
        (fun l => !(jsTrim l).isEmpty)).map (decodeLine gameType)).filterMap id

/-- Model of `line.match(/^TAG(.+)$/)` restricted to the two tags used:
the literal prefix, then at least one non-newline character to the end. -/
def matchTag (tag line : List Char) : Option (List Char) :=
  let rest := line.drop tag.length
  if begWith tag line && !rest.isEmpty && !rest.contains '\n' then some rest else none

/-- Decoded leaderboard state. -/
structure DecodedState where
  gameType : Option (List Char)
  lastProcessedMessageId : Option (List Char)
  players : List Player
deriving DecidableEq, Repr

/-- `decodeState`: bootstrap (empty state) when the content is falsy or a
marker is missing; otherwise parse the section between the first
occurrences of the markers. -/
def decodeState (messageContent : List Char) : DecodedState :=
  if messageContent.isEmpty then ⟨none, none, []⟩
  else
    match jsIndexOf DATA_START_MARKER messageContent,
          jsIndexOf DATA_END_MARKER messageContent with
    | some startIdx, some endIdx =>
      let dataSection :=
        jsTrim (jsSubstring (startIdx + DATA_START_MARKER.length) endIdx messageContent)
      let lines := jsSplitOn '\n' dataSection
      let gameType := (lines.get? 0).bind (matchTag (str "GAME:"))
      let lastMatch := (lines.get? 1).bind (matchTag (str "LAST:"))
      let lastProcessedMessageId :=
        match lastMatch with
        | some v => if v = str "none" then none else some v
        | none => none
      let playerDataString := joinSep '\n' (lines.drop 2)
      ⟨gameType, lastProcessedMessageId, decodePlayerData playerDataString gameType⟩
    | _, _ => ⟨none, none, []⟩

/-- Result of `upsertPlayer`. -/
structure UpsertResult where
  players : List Player
  updated : Bool
deriving DecidableEq, Repr

/-- JavaScript `dateA < dateB` on `Date` objects: numeric comparison that
is false whenever either side is `NaN`. -/
def jsDateLt (a b : Option Int) : Bool :=
  match a, b with
  | some x, some y => decide (x < y)
  | _, _ => false

/-- `upsertPlayer`: replace the first record with the same `userId` unless
the incoming record is strictly older; append when absent. -/
def upsertPlayer (players : List Player) (newPlayerData : Player) : UpsertResult :=
  match players.findIdx? (fun p => decide (p.userId = newPlayerData.userId)) with
  | some i =>
    let existing := (players.get? i).getD default
    if jsDateLt (dateValMs newPlayerData.lastUpdated) (dateValMs existing.lastUpdated) then
      ⟨players, false⟩
    else ⟨players.set i newPlayerData, true⟩
  | none => ⟨players ++ [newPlayerData], true⟩

/-! ## sync.js (the merge loop of `syncGame`, lines 130-150) -/

/-- State after the merge loop. -/
structure MergeOutcome where
  players : List Player
  lastMessageId : Option (List Char)
  updatedCount : Nat
deriving DecidableEq, Repr

/-- One iteration of the merge loop: upsert, then unconditionally
reassign `lastMessageId` to this update's message id; `updatedCount` only
counts applied ones.  The source's `try`/`catch` is dead weight here:
`upsertPlayer` cannot throw on records. -/
def mergeStep (st : MergeOutcome) (u : SuccessfulUpdate) : MergeOutcome :=
  let r := upsertPlayer st.players u.data
  ⟨r.players, some u.messageId, st.updatedCount + (if r.updated then 1 else 0)⟩

/-- The merge loop: fold `mergeStep` over the successful updates in
order. -/
def applyUpdates (players0 : List Player) (last0 : Option (List Char))
    (updates : List SuccessfulUpdate) : MergeOutcome :=
  updates.foldl mergeStep ⟨players0, last0, 0⟩

/-! ## Derived definitions used by the claim statements -/

/-- The candidate rank phrase for a prefix of `i` tokens. -/
def rankCandidate (parts : List (List Char)) (i : Nat) : List Char :=
  joinSep ' ' (parts.take i)

/-- Whether the `i`-token prefix case-insensitively matches a rank name. -/
def rankMatches (validRanks parts : List (List Char)) (i : Nat) : Bool :=
  validRanks.any (fun r => lowerEq r (rankCandidate parts i))

/-- The canonical rank name returned for a matching `i`-token prefix. -/
def rankFound (validRanks parts : List (List Char)) (i : Nat) : List Char :=
  (validRanks.find? (fun r => lowerEq r (rankCandidate parts i))).getD []

/-- The tier the parser assigns given the token after the rank phrase: the
token's numeric value when it lies in `[1, maxTier]`, otherwise 1. -/
def specTier (tok : Option (List Char)) (maxTier : Int) : Int :=
  match rankTierTok tok with
  | some v => if 1 ≤ v ∧ v ≤ maxTier then v else 1
  | none => 1

/-- Required pipe-field count of a player line per game. -/
def requiredCols (g : List Char) : Nat :=
  if g = gameMR ∨ g = gameOW then 7 else if g = gameDL then 5 else 0

/-- The record a kept two-rank player line decodes to (built unconditionally
from the split fields, exactly as `decodeLine` does once the field-count
check has passed). -/
def mkRecordMR (line : List Char) : Player :=
  let parts := jsSplitOn '|' line
  { userId := (parts.get? 0).getD [], role := some ((parts.get? 1).getD []),
    currentRank := some (mkRank ((parts.get? 2).getD [])),
    currentValue := jsParseInt ((parts.get? 3).getD []),
    peakRank := some (mkRank ((parts.get? 4).getD [])),
    peakValue := jsParseInt ((parts.get? 5).getD []),
    lastUpdated := (parts.get? 6).getD [] }

/-- The record a kept Deadlock player line decodes to. -/
def mkRecordDL (line : List Char) : Player :=
  let parts := jsSplitOn '|' line
  { userId := (parts.get? 0).getD [], heroName := some ((parts.get? 1).getD []),
    currentRank := some (mkRank ((parts.get? 2).getD [])),
    currentValue := jsParseInt ((parts.get? 3).getD []),
    lastUpdated := (parts.get? 4).getD [] }

/-- The record a kept player line decodes to, per game. -/
def mkRecord (g line : List Char) : Player :=
  if g = gameMR ∨ g = gameOW then mkRecordMR line else mkRecordDL line

/-- The record-level field values of a player, for stating the round-trip
precondition "no field value contains a newline or a pipe". -/
def recordFields (p : Player) : List (List Char) :=
  [p.userId, p.role.getD [], p.heroName.getD [],
   ((p.currentRank.map Rank.rank).getD []), ((p.peakRank.map Rank.rank).getD []),
   numToStr p.currentValue, numToStr p.peakValue,
   numToStr (p.currentRank.bind Rank.tier), numToStr (p.peakRank.bind Rank.tier),
   p.lastUpdated]

/-- The round-trip claim's stated precondition. -/
def noDelims (p : Player) : Bool :=
  (recordFields p).all (fun s => !(s.contains '\n') && !(s.contains '|'))

/-- The rank table `sortPlayers` uses for a two-rank game. -/
def ranksOf (g : List Char) : List (List Char) :=
  if g = gameMR then MARVEL_RIVALS_RANKS else OVERWATCH_RANKS

/-- The tier count `sortPlayers` uses for a two-rank game. -/
def tierOf (g : List Char) : Int :=
  if g = gameMR then 3 else 5

/-- Current-rank sort key of a player, as an integer (callers establish
that the key is a number). -/
def curKey (ranks : List (List Char)) (maxTier : Int) (p : Player) : Int :=
  (getRankSortValue p.currentRank ranks maxTier).getD 0

/-- Peak-rank sort key. -/
def pkKey (ranks : List (List Char)) (maxTier : Int) (p : Player) : Int :=
  (getRankSortValue p.peakRank ranks maxTier).getD 0

/-- Current ladder value. -/
def curVal (p : Player) : Int := p.currentValue.getD 0

/-- Peak ladder value. -/
def pkVal (p : Player) : Int := p.peakValue.getD 0

/-- Timestamp value. -/
def dVal (p : Player) : Int := (dateValMs p.lastUpdated).getD 0

/-- All five comparison keys of a two-rank-game player are numbers (no
`NaN` anywhere the comparator looks). -/
def numericTwoRank (ranks : List (List Char)) (maxTier : Int) (p : Player) : Bool :=
  (getRankSortValue p.currentRank ranks maxTier).isSome && p.currentValue.isSome &&
  (getRankSortValue p.peakRank ranks maxTier).isSome && p.peakValue.isSome &&
  (dateValMs p.lastUpdated).isSome

/-- The claim's ordering: descending current-rank key, then ascending
current value, then descending peak-rank key, then ascending peak value,
then descending timestamp. -/
def c5Le (ranks : List (List Char)) (maxTier : Int) (a b : Player) : Prop :=
  curKey ranks maxTier a > curKey ranks maxTier b ∨
  (curKey ranks maxTier a = curKey ranks maxTier b ∧
    (curVal a < curVal b ∨ (curVal a = curVal b ∧
      (pkKey ranks maxTier a > pkKey ranks maxTier b ∨
        (pkKey ranks maxTier a = pkKey ranks maxTier b ∧
          (pkVal a < pkVal b ∨ (pkVal a = pkVal b ∧ dVal a ≥ dVal b)))))))

/-! Concrete records and messages used by evaluation theorems. -/

/-- A healthy Marvel Rivals record at Diamond 2, value 2450. -/
def pDia2450 : Player where
  userId := str "1"
  role := some (str "Duelist")
  currentRank := some (Rank.mk (str "Diamond") (some 2))
  currentValue := some 2450
  peakRank := some (Rank.mk (str "Gold") (some 1))
  peakValue := some 2610
  lastUpdated := str "2026-02-14T00:00:00.000Z"

/-- A record at Platinum 1, value 2100. -/
def pPlat2100 : Player :=
  { pDia2450 with userId := str "2",
                  currentRank := some (Rank.mk (str "Platinum") (some 1)),
                  currentValue := some 2100 }

/-- A record at Diamond 2, value 2300. -/
def pDia2300 : Player :=
  { pDia2450 with userId := str "3", currentValue := some 2300 }

/-- A record whose current rank name is not in any rank table. -/
def pUnkRank : Player :=
  { pDia2450 with userId := str "9",
                  currentRank := some (Rank.mk (str "Zzz") (some 1)) }

/-- A record with no current rank at all. -/
def pNoRank : Player :=
  { pDia2450 with userId := str "8", currentRank := none }

/-- A record whose current rank is the three-word rank, used to refute the
round-trip claim. -/
def pOaaC2 : Player :=
  { pDia2450 with currentRank := some (Rank.mk (str "One Above All") (some 1)) }

/-- What `pOaaC2` actually decodes back to: the rank name is truncated to
its first word and the tier becomes `NaN`. -/
def pOaaDecoded : Player :=
  { pDia2450 with currentRank := some (Rank.mk (str "One") none) }

/-- A message that fails mid-parse although it carries a command tag. -/
def mBadC7 : Message := ⟨str "b1", str "LB_UPDATE_MR: garbage", 3, str "a"⟩

/-- A parseable update for a new user (tier-less ranks, which is the shape
the parser accepts). -/
def mGoodC6 : Message :=
  ⟨str "m1", str "LB_UPDATE_MR: <@7> Duelist Diamond 2450 Grandmaster 2610 2026-02-14", 1, str "a"⟩

/-- A parseable update for user 5 that is older than the stored record. -/
def mStaleC6 : Message :=
  ⟨str "m2", str "LB_UPDATE_MR: <@5> Duelist Gold 100 Gold 200 2026-02-10", 2, str "a"⟩

/-- The stored record for user 5, newer than `mStaleC6`. -/
def pExistC6 : Player :=
  { pDia2450 with userId := str "5", lastUpdated := str "2026-02-12T00:00:00.000Z" }

/-- A seven-field player line whose rank sub-field has no tier. -/
def lineC9 : List Char := str "u|r|Diamond|1|Gold 2|3|d"

/-- An incoming update for user 5 older than `pExistC6`. -/
def pIncStale : Player :=
  { pDia2450 with userId := str "5", role := some (str "X"),
                  lastUpdated := str "2026-02-10T00:00:00.000Z" }

/-- An incoming update for user 5 newer than `pExistC6`. -/
def pIncNew : Player :=
  { pDia2450 with userId := str "5", role := some (str "Y"),
                  lastUpdated := str "2026-02-14" }

/-- An incoming update for a user not present in the list. -/
def pFresh : Player := { pDia2450 with userId := str "7" }

/-- The record `lineC9` decodes to (kept, with a `NaN` tier). -/
def pC9 : Player where
  userId := str "u"
  role := some (str "r")
  currentRank := some (Rank.mk (str "Diamond") none)
  currentValue := some 1
  peakRank := some (Rank.mk (str "Gold") (some 2))
  peakValue := some 3
  lastUpdated := str "d"

/-! ## Well-formedness predicates used by the state round trip -/

/-- Head character (if any) is not whitespace. -/
def headNotWS : List Char → Bool
  | [] => true
  | c :: _ => !isWS c

def lastNotWS (s : List Char) : Bool := headNotWS s.reverse

/-- No newline, pipe or opening bracket anywhere in the field, and no
whitespace at either edge: such a field survives the codec verbatim. -/
def okChar (c : Char) : Bool := !(c = '\n') && !(c = '|') && !(c = '[')

def cleanField (s : List Char) : Bool := s.all okChar && headNotWS s && lastNotWS s

def nameOk (s : List Char) : Bool := cleanField s && s.all (fun c => !(c = ' '))

def lineOkB (line : List Char) : Bool :=
  line.all (fun c => !(c = '\n') && !(c = '[')) && headNotWS line &&
  lastNotWS line && !line.isEmpty

/-- A player record all of whose encoded fields are clean, whose rank
names are single space-free tokens, and whose fields not encoded for
game `g` are absent. -/
def wfPlayer (g : List Char) (p : Player) : Bool :=
  if g = gameMR ∨ g = gameOW then
    match p.currentRank, p.peakRank, p.role with
    | some cr, some pr, some r =>
      cleanField p.userId && cleanField r && !r.isEmpty &&
      nameOk cr.rank && nameOk pr.rank && cleanField p.lastUpdated &&
      (p.heroName = none) && (p.game = none) && (p.rawMention = none)
    | _, _, _ => false
  else if g = gameDL then
    match p.currentRank, p.heroName with
    | some cr, some hn =>
      cleanField p.userId && cleanField hn && !hn.isEmpty &&
      nameOk cr.rank && cleanField p.lastUpdated &&
      (p.role = none) && (p.peakRank = none) && (p.peakValue = none) &&
      (p.game = none) && (p.rawMention = none)
    | _, _ => false
  else false

/-- The characters of an encoded state between the two markers. -/
def stateBlobMid (l1 l2 pb : List Char) : List Char :=
  '\n' :: ((l1 ++ ('\n' :: (l2 ++ ('\n' :: pb)))) ++ ['\n'])

/-- Cursor values that encode faithfully: nothing, or a nonempty clean
string different from the literal `none`. -/
def cleanCursor : Option (List Char) → Bool
  | none => true
  | some v => cleanField v && !v.isEmpty && !(v = str "none")

/-! ## Helper lemmas on `List.findIdx?` and list surgery -/

/-- `findIdx?` misses a list on which the predicate is everywhere false,
for any accumulator value. -/
theorem findIdxP_none {α : Type} (p : α → Bool) (l : List α)
    (h : ∀ q ∈ l, p q = false) : ∀ i, List.findIdx? p l i = none := by
  induction l with
  | nil => intro i; rfl
  | cons a t ih =>
    intro i
    rw [List.findIdx?_cons, h a (by simp)]
    simp only [Bool.false_eq_true, if_false]
    exact ih (fun q hq => h q (by simp [hq])) (i + 1)

/-- `findIdx?` finds the first hit placed after an all-miss segment. -/
theorem findIdxP_after {α : Type} (p : α → Bool) (pre : List α) (x : α) (post : List α)
    (hpre : ∀ q ∈ pre, p q = false) (hx : p x = true) :
    ∀ i, List.findIdx? p (pre ++ x :: post) i = some (i + pre.length) := by
  induction pre with
  | nil => intro i; rw [List.nil_append, List.findIdx?_cons, hx]; simp
  | cons a t ih =>
    intro i
    rw [List.cons_append, List.findIdx?_cons, hpre a (by simp)]
    simp only [Bool.false_eq_true, if_false]
    rw [ih (fun q hq => hpre q (by simp [hq])) (i + 1)]
    simp; omega

/-- A successful `findIdx?` points at an element satisfying the
predicate. -/
theorem findIdxP_found {α : Type} (p : α → Bool) :
    ∀ (l : List α) (i j : Nat), List.findIdx? p l i = some j →
      i ≤ j ∧ ∃ x, l.get? (j - i) = some x ∧ p x = true := by
  intro l
  induction l with
  | nil => intro i j h; simp [List.findIdx?] at h
  | cons a t ih =>
    intro i j h
    rw [List.findIdx?_cons] at h
    by_cases hp : p a = true
    · rw [hp] at h; simp at h
      subst h
      exact ⟨le_refl i, a, by simp, hp⟩
    · rw [Bool.eq_false_iff.mpr hp] at h
      simp only [Bool.false_eq_true, if_false] at h
      obtain ⟨hij, x, hx, hpx⟩ := ih (i + 1) j h
      refine ⟨by omega, x, ?_, hpx⟩
      have : j - i = (j - (i + 1)) + 1 := by omega
      rw [this]
      simpa using hx

/-! ## Claim C1 -/

/-- Claim C1 (code bug): the spec's end-to-end example
`LB_UPDATE_MR: @Turbo Duelist Diamond 2 2450 Master 1 2610 2026-02-14` —
which is also the example in the source's own doc comment — does NOT
parse: `parseMarvelRivals` returns no result, because `@Turbo` does not
match the mention pattern `<@!?(\d+)>` (and, independently, `Master` is
not a Marvel Rivals rank, and the duplicated `parts[2]` in the
current-rank scan misaligns the tiered format). -/
theorem claim_C1 :
    parseMarvelRivals
      (str "LB_UPDATE_MR: @Turbo Duelist Diamond 2 2450 Master 1 2610 2026-02-14") = none := by
  decide

/-! ## Claim C4 -/

/-- Claim C4 (code bug): the `999999` sentinel for an unknown or absent
rank does NOT sort as worst.  The comparator places larger keys first, so
a player with an unrecognized rank name (`pUnkRank`) or no rank at all
(`pNoRank`) is placed BEFORE a recognized Diamond 2 player, in both input
orders; the last two conjuncts exhibit the sentinel key and a valid key. -/
theorem claim_C4 :
    sortPlayers [pDia2450, pUnkRank] gameMR = [pUnkRank, pDia2450] ∧
    sortPlayers [pUnkRank, pDia2450] gameMR = [pUnkRank, pDia2450] ∧
    sortPlayers [pDia2450, pNoRank] gameMR = [pNoRank, pDia2450] ∧
    getRankSortValue pUnkRank.currentRank MARVEL_RIVALS_RANKS 3 = some 999999 ∧
    getRankSortValue pNoRank.currentRank MARVEL_RIVALS_RANKS 3 = some 999999 ∧
    getRankSortValue pDia2450.currentRank MARVEL_RIVALS_RANKS 3 = some 14 := by
  decide

/-! ## Claim C7 -/

/-- Claim C7 (code bug): a message that carries a command tag but fails to
parse is counted in `skipped`, and the `failed` partition stays empty (the
source's `failed.push` branch is unreachable): the claim's routing of
parse failures to `failed` does not happen. -/
theorem claim_C7 :
    jsIncludes MR_TAG mBadC7.content = true ∧
    parseMessage mBadC7.content = none ∧
    parseMultipleUpdates [mBadC7] none = ⟨[], [], 1⟩ := by
  decide

/-! ## Claim C2, counterexample -/

/-- Claim C2 counterexample: a record whose rank is the legitimate
three-word rank `One Above All` satisfies the claim's precondition (no
field value contains a newline or a pipe), yet decoding the encoded state
yields a different record (`rank := "One"`, `NaN` tier) — so the player
set is not preserved even as a set. -/
theorem claim_C2_cex :
    noDelims pOaaC2 = true ∧
    (decodeState ((encodeState (some (str "123")) [pOaaC2] gameMR).getD [])).players
      = [pOaaDecoded] ∧
    pOaaDecoded ≠ pOaaC2 := by
  decide

/-! ## Claim C6, counterexample -/

/-- Claim C6 counterexample: two messages parse successfully; the second
is stale (its upsert is not applied: only 1 of 2 updates counts as
applied, and the stored record for user 5 is unchanged), yet the cursor
after the merge loop is the second message's id `m2`, not the id `m1` of
the last successfully APPLIED update. -/
theorem claim_C6_cex :
    (parseMultipleUpdates [mGoodC6, mStaleC6] (some gameMR)).successful.length = 2 ∧
    ((parseMultipleUpdates [mGoodC6, mStaleC6] (some gameMR)).successful.get? 0).map
      (fun u => u.messageId) = some (str "m1") ∧
    ((parseMultipleUpdates [mGoodC6, mStaleC6] (some gameMR)).successful.get? 1).map
      (fun u => u.messageId) = some (str "m2") ∧
    (applyUpdates [pExistC6] none
      (parseMultipleUpdates [mGoodC6, mStaleC6] (some gameMR)).successful).updatedCount = 1 ∧
    (applyUpdates [pExistC6] none
      (parseMultipleUpdates [mGoodC6, mStaleC6] (some gameMR)).successful).players.get? 0
      = some pExistC6 ∧
    (applyUpdates [pExistC6] none
      (parseMultipleUpdates [mGoodC6, mStaleC6] (some gameMR)).successful).lastMessageId
      = some (str "m2") ∧
    str "m2" ≠ str "m1" := by
  decide

/-! ## Claim C8, counterexample -/

/-- Claim C8 counterexample: in `"Diamond 9"` the token following the
matched rank name is numeric (`9`), but the tier does not become 9 as the
claim states — it is out of `[1, maxTier]` and defaults to 1. -/
theorem claim_C8_cex :
    parseRankWithTier (str "Diamond 9") MARVEL_RIVALS_RANKS 3
      = some (Rank.mk (str "Diamond") (some 1)) ∧
    rankTierTok (some (str "9")) = some 9 ∧
    parseRankWithTier (str "Diamond 9") MARVEL_RIVALS_RANKS 3
      ≠ some (Rank.mk (str "Diamond") (some 9)) := by
  decide

/-- Folding equation: the loop's `any` test is `rankMatches`. -/
theorem rankMatches_eq (ranks parts : List (List Char)) (i : Nat) :
    (ranks.any fun r => lowerEq r (joinSep ' ' (List.take i parts)))
      = rankMatches ranks parts i := rfl

/-- Folding equation: the loop's `find?` result is `rankFound`. -/
theorem rankFound_eq (ranks parts : List (List Char)) (i : Nat) :
    (List.find? (fun r => lowerEq r (joinSep ' ' (List.take i parts))) ranks).getD []
      = rankFound ranks parts i := rfl

/-- The countdown loop misses exactly when no non-empty token prefix up to
`n` matches a rank name. -/
theorem rankLoop_none_iff (parts ranks : List (List Char)) :
    ∀ n, (rankLoop parts ranks n = none ↔
      ∀ i, 1 ≤ i → i ≤ n → rankMatches ranks parts i = false) := by
  intro n
  induction n with
  | zero =>
    constructor
    · intro _ i h1 h2; omega
    · intro _; rfl
  | succ m ih =>
    simp only [rankLoop]
    rw [rankMatches_eq ranks parts (m + 1)]
    by_cases hm : rankMatches ranks parts (m + 1) = true
    · rw [if_pos hm]
      simp only [reduceCtorEq, false_iff]
      intro hall
      have := hall (m + 1) (by omega) (le_refl _)
      rw [hm] at this
      cases this
    · rw [if_neg hm]
      rw [ih]
      constructor
      · intro h i h1 h2
        by_cases he : i = m + 1
        · subst he; exact Bool.eq_false_iff.mpr hm
        · exact h i h1 (by omega)
      · intro h i h1 h2
        exact h i h1 (by omega)

/-- The countdown loop returns the hit at the longest matching prefix. -/
theorem rankLoop_found (parts ranks : List (List Char)) :
    ∀ n i, 1 ≤ i → i ≤ n → rankMatches ranks parts i = true →
      (∀ j, i < j → j ≤ n → rankMatches ranks parts j = false) →
      rankLoop parts ranks n = some (rankFound ranks parts i, rankTierTok (parts.get? i)) := by
  intro n
  induction n with
  | zero => intro i h1 h2; omega
  | succ m ih =>
    intro i h1 h2 hmatch hafter
    simp only [rankLoop]
    rw [rankMatches_eq ranks parts (m + 1), rankFound_eq ranks parts (m + 1)]
    by_cases he : i = m + 1
    · subst he
      rw [if_pos hmatch]
    · have hm : rankMatches ranks parts (m + 1) = false := hafter (m + 1) (by omega) (le_refl _)
      rw [if_neg (by rw [hm]; simp)]
      exact ih i h1 (by omega) hmatch (fun j hj1 hj2 => hafter j hj1 (by omega))

/-- The source's two-step tier normalization equals the single rule
"numeric and in `[1, maxTier]`, else 1". -/
theorem tierF_eq (t0 : Option Int) (maxTier : Int) :
    (match (match t0 with
            | some t => if t ≠ 0 ∧ (t < 1 ∨ t > maxTier) then none else some t
            | none => none) with
     | some t => if t = 0 then (1 : Int) else t
     | none => 1) =
    (match t0 with
     | some v => if 1 ≤ v ∧ v ≤ maxTier then v else 1
     | none => 1) := by
  cases t0 with
  | none => rfl
  | some t =>
    dsimp only
    by_cases hz : t = 0
    · subst hz
      norm_num
    · by_cases hr : t < 1 ∨ t > maxTier
      · rw [if_pos ⟨hz, hr⟩]
        dsimp only
        rw [if_neg (by omega)]
      · rw [if_neg (by tauto)]
        dsimp only
        rw [if_neg hz, if_pos (by omega)]

/-- Claim C8 as amended (corrected): rank recognition matches the longest
token prefix case-insensitively; on a match, the following token becomes
the tier when it is numeric AND lies within `[1, maxTier]`, and otherwise
(missing, non-numeric, zero or out of range) the tier defaults to 1; with
no matching prefix recognition fails.  The three examples of the claim
hold as stated. -/
theorem claim_C8 :
    parseRankWithTier (str "One Above All 1") MARVEL_RIVALS_RANKS 3
      = some (Rank.mk (str "One Above All") (some 1)) ∧
    parseRankWithTier (str "Diamond 2") MARVEL_RIVALS_RANKS 3
      = some (Rank.mk (str "Diamond") (some 2)) ∧
    parseRankWithTier (str "Nonsense 1") MARVEL_RIVALS_RANKS 3 = none ∧
    (∀ (s : List Char) (ranks : List (List Char)) (maxTier : Int),
      (parseRankWithTier s ranks maxTier = none ↔
        ∀ i, 1 ≤ i → i ≤ (splitWS (jsTrim s)).length →
          rankMatches ranks (splitWS (jsTrim s)) i = false)) ∧
    (∀ (s : List Char) (ranks : List (List Char)) (maxTier : Int) (i : Nat),
      1 ≤ i → i ≤ (splitWS (jsTrim s)).length →
      rankMatches ranks (splitWS (jsTrim s)) i = true →
      (∀ j, i < j → j ≤ (splitWS (jsTrim s)).length →
        rankMatches ranks (splitWS (jsTrim s)) j = false) →
      parseRankWithTier s ranks maxTier =
        some (Rank.mk (rankFound ranks (splitWS (jsTrim s)) i)
          (some (specTier ((splitWS (jsTrim s)).get? i) maxTier)))) := by
  refine ⟨by decide, by decide, by decide, ?_, ?_⟩
  · intro s ranks maxTier
    simp only [parseRankWithTier]
    rw [← rankLoop_none_iff (splitWS (jsTrim s)) ranks (splitWS (jsTrim s)).length]
    cases h : rankLoop (splitWS (jsTrim s)) ranks (splitWS (jsTrim s)).length with
    | none => simp
    | some p => obtain ⟨a, b⟩ := p; simp
  · intro s ranks maxTier i h1 h2 hmatch hafter
    simp only [parseRankWithTier]
    rw [rankLoop_found (splitWS (jsTrim s)) ranks (splitWS (jsTrim s)).length i h1 h2
      hmatch hafter]
    dsimp only
    congr 2
    have := tierF_eq (rankTierTok ((splitWS (jsTrim s)).get? i)) maxTier
    rw [this]
    rfl

/-- Witness for C8: the longest-prefix component applied to `"Gold 2"`
with the match at one token. -/
theorem claim_C8_witness :
    parseRankWithTier (str "Gold 2") MARVEL_RIVALS_RANKS 3
      = some (Rank.mk (str "Gold") (some 2)) := by
  have h := claim_C8.2.2.2.2 (str "Gold 2") MARVEL_RIVALS_RANKS 3 1 (by decide) (by decide)
    (by decide) (fun j h1 h2 => by
      have hlen : (splitWS (jsTrim (str "Gold 2"))).length = 2 := by decide
      rw [hlen] at h2
      have : j = 2 := by omega
      subst this; decide)
  exact h.trans (by decide)

/-! ## Claim C9, counterexample -/

/-- Claim C9 counterexample: a seven-field line whose rank sub-field
`"Diamond"` fails to split into a name and a tier is NOT dropped — it
decodes to a record with a `NaN` tier. -/
theorem claim_C9_cex :
    decodePlayerData lineC9 (some gameMR) = [pC9] ∧
    (jsSplitOn ' ' (str "Diamond")).length = 1 ∧
    pC9.currentRank = some (Rank.mk (str "Diamond") none) := by
  decide

/-- `mkRecord` on the Marvel Rivals game picks the two-rank shape. -/
theorem mkRecord_MR (l : List Char) : mkRecord gameMR l = mkRecordMR l := by
  unfold mkRecord; rw [if_pos (Or.inl rfl)]

/-- `mkRecord` on the Overwatch game picks the two-rank shape. -/
theorem mkRecord_OW (l : List Char) : mkRecord gameOW l = mkRecordMR l := by
  unfold mkRecord; rw [if_pos (Or.inr rfl)]

/-- `mkRecord` on the Deadlock game picks the single-rank shape. -/
theorem mkRecord_DL (l : List Char) : mkRecord gameDL l = mkRecordDL l := by
  unfold mkRecord; rw [if_neg (by decide)]

/-- Marvel Rivals lines need 7 fields. -/
theorem requiredCols_MR : requiredCols gameMR = 7 := by decide

/-- Overwatch lines need 7 fields. -/
theorem requiredCols_OW : requiredCols gameOW = 7 := by decide

/-- Deadlock lines need 5 fields. -/
theorem requiredCols_DL : requiredCols gameDL = 5 := by decide

/-- A player line is dropped by `decodeLine` exactly when it has fewer
pipe-delimited fields than the game requires; otherwise it decodes to the
unconditionally-built record (whatever the rank sub-fields look like). -/
theorem decodeLine_eq (g : List Char) (hg : g = gameMR ∨ g = gameOW ∨ g = gameDL)
    (l : List Char) :
    decodeLine (some g) l =
      if requiredCols g ≤ (jsSplitOn '|' l).length then some (mkRecord g l) else none := by
  rcases hg with h | h | h <;> subst h
  · rw [requiredCols_MR, mkRecord_MR]
    simp only [decodeLine]
    rw [if_pos (Or.inl True.intro : (True ∨
      (some gameMR : Option (List Char)) = some gameOW))]
    by_cases hl : (jsSplitOn '|' l).length < 7
    · rw [if_pos hl, if_neg (by omega)]
    · rw [if_neg hl, if_pos (by omega)]
      rfl
  · rw [requiredCols_OW, mkRecord_OW]
    simp only [decodeLine]
    rw [if_pos (Or.inr True.intro : ((some gameOW : Option (List Char)) = some gameMR ∨
      True))]
    by_cases hl : (jsSplitOn '|' l).length < 7
    · rw [if_pos hl, if_neg (by omega)]
    · rw [if_neg hl, if_pos (by omega)]
      rfl
  · rw [requiredCols_DL, mkRecord_DL]
    simp only [decodeLine]
    rw [if_neg (by decide : ¬((some gameDL : Option (List Char)) = some gameMR ∨
      (some gameDL : Option (List Char)) = some gameOW))]
    rw [if_pos True.intro]
    by_cases hl : (jsSplitOn '|' l).length < 5
    · rw [if_pos hl, if_neg (by omega)]
    · rw [if_neg hl, if_pos (by omega)]
      rfl

/-- Claim C9 as amended (corrected): during decode, exactly the non-blank
player lines with at least the game's required number of pipe-delimited
fields survive, each decoded to its record; a line whose rank sub-field
fails to split into a name and a tier is NOT dropped (the record simply
carries a `NaN` tier — see the counterexample), and no malformed line can
abort the decode, which is a total function of this shape. -/
theorem claim_C9 (g : List Char) (hg : g = gameMR ∨ g = gameOW ∨ g = gameDL)
    (ds : List Char) :
    decodePlayerData ds (some g) =
      ((jsSplitOn '\n' (jsTrim ds)).filter (fun l => !(jsTrim l).isEmpty)).filterMap
        (fun l => if requiredCols g ≤ (jsSplitOn '|' l).length then some (mkRecord g l)
                  else none) := by
  unfold decodePlayerData
  by_cases he : (jsTrim ds).isEmpty = true
  · rw [if_pos he]
    rw [List.isEmpty_iff] at he
    rw [he]
    rfl
  · rw [if_neg he]
    rw [List.filterMap_map]
    apply List.filterMap_congr
    intro l _
    exact decodeLine_eq g hg l

/-- Witness for C9: the characterization applied to a concrete blob with
one tier-less-rank line and one short line. -/
theorem claim_C9_witness :
    decodePlayerData (str "u|r|Diamond|1|Gold 2|3|d\nshort|line") (some gameMR) =
      ((jsSplitOn '\n' (jsTrim (str "u|r|Diamond|1|Gold 2|3|d\nshort|line"))).filter
        (fun l => !(jsTrim l).isEmpty)).filterMap
        (fun l => if requiredCols gameMR ≤ (jsSplitOn '|' l).length
                  then some (mkRecord gameMR l) else none) :=
  claim_C9 gameMR (Or.inl rfl) (str "u|r|Diamond|1|Gold 2|3|d\nshort|line")

/-! ## Claim C3 -/

/-- Claim C3 (confirmed): with a record `old` for the incoming user at
timestamp `t` (and every record before it for other users), an incoming
record at a strictly earlier timestamp leaves the list unchanged and
reports `updated = false`; an incoming record at an equal or later
timestamp replaces `old` wholesale in place and reports `updated = true`
(ties replace). -/
theorem claim_C3 (pre post : List Player) (old inc : Player) (t t' : Int)
    (hpre : ∀ q ∈ pre, q.userId ≠ inc.userId) (hold : old.userId = inc.userId)
    (ht : dateValMs old.lastUpdated = some t) (ht' : dateValMs inc.lastUpdated = some t') :
    (t' < t → upsertPlayer (pre ++ old :: post) inc = ⟨pre ++ old :: post, false⟩) ∧
    (t ≤ t' → upsertPlayer (pre ++ old :: post) inc = ⟨pre ++ inc :: post, true⟩) := by
  have hfind : List.findIdx? (fun p => decide (p.userId = inc.userId)) (pre ++ old :: post) 0
      = some pre.length := by
    have := findIdxP_after (fun p => decide (p.userId = inc.userId)) pre old post
      (fun q hq => decide_eq_false (hpre q hq)) (by simp [hold]) 0
    simpa using this
  have hget : (pre ++ old :: post).get? pre.length = some old := by
    rw [List.get?_eq_getElem?, List.getElem?_append_right (le_refl _)]
    simp
  constructor
  · intro hlt
    unfold upsertPlayer
    rw [hfind]
    simp only [hget, Option.getD_some, ht, ht', jsDateLt]
    simp [hlt]
  · intro hle
    unfold upsertPlayer
    rw [hfind]
    simp only [hget, Option.getD_some, ht, ht', jsDateLt]
    have : ¬(t' < t) := by omega
    simp only [decide_eq_false this, if_false]
    rw [List.set_append]
    simp

/-- Witness for C3: the stale incoming record `pIncStale`
(2026-02-10 against stored 2026-02-12) is discarded, and the equal-or-newer
`pIncNew` (2026-02-14) replaces the record. -/
theorem claim_C3_witness :
    upsertPlayer [pExistC6] pIncStale = ⟨[pExistC6], false⟩ ∧
    upsertPlayer [pExistC6] pIncNew = ⟨[pIncNew], true⟩ := by
  constructor
  · exact (claim_C3 [] [] pExistC6 pIncStale 1770854400000 1770681600000
      (by simp) (by decide) (by decide) (by decide)).1 (by decide)
  · exact (claim_C3 [] [] pExistC6 pIncNew 1770854400000 1771027200000
      (by simp) (by decide) (by decide) (by decide)).2 (by decide)

/-! ## Claim C10 -/

/-- Claim C10 (confirmed): when no record has the incoming `userId` the
incoming record is appended at the end and nothing else changes; and in
every case, a record at position `i` whose `userId` differs from the
incoming one is still at position `i`, unchanged, after the upsert. -/
theorem claim_C10 (players : List Player) (inc : Player) :
    ((∀ p ∈ players, p.userId ≠ inc.userId) →
       upsertPlayer players inc = ⟨players ++ [inc], true⟩) ∧
    (∀ (i : Nat) (p0 : Player), players.get? i = some p0 → p0.userId ≠ inc.userId →
       (upsertPlayer players inc).players.get? i = some p0) := by
  constructor
  · intro hall
    unfold upsertPlayer
    rw [findIdxP_none _ _ (fun q hq => decide_eq_false (hall q hq)) 0]
  · intro i p0 hget hne
    unfold upsertPlayer
    cases hfind : List.findIdx? (fun p => decide (p.userId = inc.userId)) players 0 with
    | none =>
      simp only []
      rw [List.get?_eq_getElem?] at hget ⊢
      rw [List.getElem?_append_left]
      · exact hget
      · exact (List.getElem?_eq_some.mp hget).1
    | some j =>
      obtain ⟨-, x, hx, hpx⟩ := findIdxP_found _ players 0 j hfind
      simp only [Nat.sub_zero] at hx
      have hji : j ≠ i := by
        intro e; subst e
        rw [hget] at hx
        cases hx
        exact hne (of_decide_eq_true hpx)
      dsimp only
      by_cases hc : jsDateLt (dateValMs inc.lastUpdated)
          (dateValMs ((players.get? j).getD default).lastUpdated) = true
      · rw [if_pos hc]
        exact hget
      · rw [if_neg hc]
        rw [List.get?_eq_getElem?, List.getElem?_set, if_neg hji, ← List.get?_eq_getElem?]
        exact hget

/-! ## Claim C5 -/

/-- Stable insertion permutes. -/
theorem insertCmp_perm {α : Type} (cmp : α → α → Int) (a : α) :
    ∀ l : List α, (insertCmp cmp a l).Perm (a :: l) := by
  intro l
  induction l with
  | nil => exact List.Perm.refl _
  | cons b t ih =>
    unfold insertCmp
    by_cases h : cmp b a ≤ 0
    · rw [if_pos h]
      exact ((ih.cons b).trans (List.Perm.swap a b t)).symm.symm
    · rw [if_neg h]

/-- The insertion fold permutes the input onto the accumulator. -/
theorem jsSortBy_perm_aux {α : Type} (cmp : α → α → Int) :
    ∀ (l acc : List α), (l.foldl (fun acc x => insertCmp cmp x acc) acc).Perm (l ++ acc) := by
  intro l
  induction l with
  | nil => intro acc; simp
  | cons x t ih =>
    intro acc
    rw [List.foldl_cons]
    refine (ih (insertCmp cmp x acc)).trans ?_
    refine (List.Perm.append_left t (insertCmp_perm cmp x acc)).trans ?_
    exact @List.perm_middle _ x t acc

/-- The modelled sort is a permutation. -/
theorem jsSortBy_perm {α : Type} (cmp : α → α → Int) (l : List α) :
    (jsSortBy cmp l).Perm l := by
  have := jsSortBy_perm_aux cmp l []
  simpa [jsSortBy] using this

/-- Membership through stable insertion. -/
theorem mem_insertCmp {α : Type} (cmp : α → α → Int) (a x : α) (l : List α) :
    x ∈ insertCmp cmp a l ↔ x = a ∨ x ∈ l := by
  rw [(insertCmp_perm cmp a l).mem_iff]
  simp

/-- Inserting into a comparator-sorted list keeps it sorted, for elements
on which the comparator is total and transitive. -/
theorem insertCmp_pairwise {α : Type} (cmp : α → α → Int) (P : α → Prop)
    (htot : ∀ x y, P x → P y → cmp x y ≤ 0 ∨ cmp y x ≤ 0)
    (htrans : ∀ x y z, P x → P y → P z →
      cmp x y ≤ 0 → cmp y z ≤ 0 → cmp x z ≤ 0)
    (a : α) (ha : P a) :
    ∀ l : List α, (∀ x ∈ l, P x) →
      List.Pairwise (fun x y => cmp x y ≤ 0) l →
      List.Pairwise (fun x y => cmp x y ≤ 0) (insertCmp cmp a l) := by
  intro l
  induction l with
  | nil => intro _ _; exact List.pairwise_singleton _ a
  | cons b t ih =>
    intro hP hpw
    rw [List.pairwise_cons] at hpw
    unfold insertCmp
    by_cases h : cmp b a ≤ 0
    · rw [if_pos h]
      rw [List.pairwise_cons]
      constructor
      · intro y hy
        rcases (mem_insertCmp cmp a y t).mp hy with rfl | hyt
        · exact h
        · exact hpw.1 y hyt
      · exact ih (fun x hx => hP x (by simp [hx])) hpw.2
    · rw [if_neg h]
      rw [List.pairwise_cons]
      have hab : cmp a b ≤ 0 := by
        rcases htot a b ha (hP b (by simp)) with h1 | h1
        · exact h1
        · exact absurd h1 h
      constructor
      · intro y hy
        rcases List.mem_cons.mp hy with rfl | hyt
        · exact hab
        · exact htrans a b y ha (hP b (by simp)) (hP y (by simp [hyt])) hab (hpw.1 y hyt)
      · rw [List.pairwise_cons]
        exact ⟨hpw.1, hpw.2⟩

/-- The whole insertion fold sorts, under the same conditions. -/
theorem jsSortBy_pairwise {α : Type} (cmp : α → α → Int) (P : α → Prop)
    (htot : ∀ x y, P x → P y → cmp x y ≤ 0 ∨ cmp y x ≤ 0)
    (htrans : ∀ x y z, P x → P y → P z →
      cmp x y ≤ 0 → cmp y z ≤ 0 → cmp x z ≤ 0) :
    ∀ (l acc : List α), (∀ x ∈ l, P x) → (∀ x ∈ acc, P x) →
      List.Pairwise (fun x y => cmp x y ≤ 0) acc →
      List.Pairwise (fun x y => cmp x y ≤ 0)
        (l.foldl (fun acc x => insertCmp cmp x acc) acc) := by
  intro l
  induction l with
  | nil => intro acc _ _ hpw; exact hpw
  | cons x t ih =>
    intro acc hl hacc hpw
    rw [List.foldl_cons]
    refine ih (insertCmp cmp x acc) (fun y hy => hl y (by simp [hy])) ?_ ?_
    · intro y hy
      rcases (mem_insertCmp cmp x y acc).mp hy with rfl | hya
      · exact hl y (by simp)
      · exact hacc y hya
    · exact insertCmp_pairwise cmp P htot htrans x (hl x (by simp)) acc hacc hpw

/-- The claim's lexicographic order is total. -/
theorem c5Le_total (ranks : List (List Char)) (maxTier : Int) (a b : Player) :
    c5Le ranks maxTier a b ∨ c5Le ranks maxTier b a := by
  unfold c5Le
  omega

/-- The claim's lexicographic order is transitive. -/
theorem c5Le_trans (ranks : List (List Char)) (maxTier : Int) (a b c : Player) :
    c5Le ranks maxTier a b → c5Le ranks maxTier b c → c5Le ranks maxTier a c := by
  unfold c5Le
  omega

/-- On players whose five keys are all numbers, a non-positive comparator
value is exactly the claim's lexicographic order. -/
theorem cmp_le_iff (ranks : List (List Char)) (maxTier : Int) (a b : Player)
    (ha : numericTwoRank ranks maxTier a = true)
    (hb : numericTwoRank ranks maxTier b = true) :
    cmpTwoRank ranks maxTier a b ≤ 0 ↔ c5Le ranks maxTier a b := by
  simp only [numericTwoRank, Bool.and_eq_true] at ha hb
  obtain ⟨⟨⟨⟨ha1, ha2⟩, ha3⟩, ha4⟩, ha5⟩ := ha
  obtain ⟨⟨⟨⟨hb1, hb2⟩, hb3⟩, hb4⟩, hb5⟩ := hb
  obtain ⟨ka1, hka1⟩ := Option.isSome_iff_exists.mp ha1
  obtain ⟨ka2, hka2⟩ := Option.isSome_iff_exists.mp ha2
  obtain ⟨ka3, hka3⟩ := Option.isSome_iff_exists.mp ha3
  obtain ⟨ka4, hka4⟩ := Option.isSome_iff_exists.mp ha4
  obtain ⟨ka5, hka5⟩ := Option.isSome_iff_exists.mp ha5
  obtain ⟨kb1, hkb1⟩ := Option.isSome_iff_exists.mp hb1
  obtain ⟨kb2, hkb2⟩ := Option.isSome_iff_exists.mp hb2
  obtain ⟨kb3, hkb3⟩ := Option.isSome_iff_exists.mp hb3
  obtain ⟨kb4, hkb4⟩ := Option.isSome_iff_exists.mp hb4
  obtain ⟨kb5, hkb5⟩ := Option.isSome_iff_exists.mp hb5
  unfold cmpTwoRank stepDesc stepAsc dateDesc c5Le curKey curVal pkKey pkVal dVal
  rw [hka1, hka2, hka3, hka4, hka5, hkb1, hkb2, hkb3, hkb4, hkb5]
  dsimp only [Option.getD_some]
  split_ifs <;> omega

/-- Claim C5 (confirmed): on a two-rank game with numeric keys,
`sortPlayers` returns a permutation of its input ordered by descending
current-rank key, then ascending current value, then descending peak-rank
key, then ascending peak value, then descending timestamp; and the claim's
two concrete examples hold in both input orders. -/
theorem claim_C5 :
    (∀ (g : List Char), (g = gameMR ∨ g = gameOW) → ∀ l : List Player,
      (∀ p ∈ l, numericTwoRank (ranksOf g) (tierOf g) p = true) →
      (sortPlayers l g).Perm l ∧
      List.Pairwise (c5Le (ranksOf g) (tierOf g)) (sortPlayers l g)) ∧
    sortPlayers [pPlat2100, pDia2450] gameMR = [pDia2450, pPlat2100] ∧
    sortPlayers [pDia2450, pPlat2100] gameMR = [pDia2450, pPlat2100] ∧
    sortPlayers [pDia2450, pDia2300] gameMR = [pDia2300, pDia2450] ∧
    sortPlayers [pDia2300, pDia2450] gameMR = [pDia2300, pDia2450] := by
  refine ⟨?_, by decide, by decide, by decide, by decide⟩
  intro g hg l hnum
  have hcmp : cmpPlayers g = fun a b => cmpTwoRank (ranksOf g) (tierOf g) a b := by
    rcases hg with h | h <;> subst h
    · funext a b
      unfold cmpPlayers ranksOf tierOf
      rw [if_pos rfl, if_pos rfl, if_pos rfl]
    · funext a b
      unfold cmpPlayers ranksOf tierOf
      rw [if_neg (by decide), if_pos rfl, if_neg (by decide), if_neg (by decide)]
  unfold sortPlayers
  by_cases he : l.isEmpty = true
  · rw [if_pos he]
    rw [List.isEmpty_iff] at he
    subst he
    exact ⟨List.Perm.refl _, List.Pairwise.nil⟩
  · rw [if_neg he, hcmp]
    have hperm := jsSortBy_perm (fun a b => cmpTwoRank (ranksOf g) (tierOf g) a b) l
    refine ⟨hperm, ?_⟩
    have hpw := jsSortBy_pairwise (fun a b => cmpTwoRank (ranksOf g) (tierOf g) a b)
      (fun p => numericTwoRank (ranksOf g) (tierOf g) p = true)
      (fun x y hx hy => by
        rw [cmp_le_iff _ _ _ _ hx hy, cmp_le_iff _ _ _ _ hy hx]
        exact c5Le_total _ _ x y)
      (fun x y z hx hy hz h1 h2 => by
        rw [cmp_le_iff _ _ _ _ hx hz]
        rw [cmp_le_iff _ _ _ _ hx hy] at h1
        rw [cmp_le_iff _ _ _ _ hy hz] at h2
        exact c5Le_trans _ _ x y z h1 h2)
      l [] hnum (by simp) List.Pairwise.nil
    refine hpw.imp_of_mem ?_
    intro a b hma hmb hR
    have hna := hnum a (hperm.mem_iff.mp hma)
    have hnb := hnum b (hperm.mem_iff.mp hmb)
    exact (cmp_le_iff _ _ _ _ hna hnb).mp hR

/-- Witness for C5: the general part applied to a concrete three-player
list. -/
theorem claim_C5_witness :
    (sortPlayers [pDia2450, pPlat2100, pDia2300] gameMR).Perm
      [pDia2450, pPlat2100, pDia2300] ∧
    List.Pairwise (c5Le (ranksOf gameMR) (tierOf gameMR))
      (sortPlayers [pDia2450, pPlat2100, pDia2300] gameMR) :=
  claim_C5.1 gameMR (Or.inl rfl) [pDia2450, pPlat2100, pDia2300] (by decide)

/-! ## Claim C6 -/

/-- The cursor after the merge loop equals the message id of the LAST
element of the folded list (independently of upsert outcomes), for any
starting state. -/
theorem applyFold_last (us : List SuccessfulUpdate) :
    ∀ st : MergeOutcome, (us.foldl mergeStep st).lastMessageId =
      (match us.getLast? with
       | some u => some u.messageId
       | none => st.lastMessageId) := by
  induction us with
  | nil => intro st; rfl
  | cons u t ih =>
    intro st
    rw [List.foldl_cons, ih, List.getLast?_cons]
    cases h : t.getLast? with
    | some v => simp [h]
    | none => simp [h, mergeStep]

/-- Every entry of the `successful` partition comes from a message that
parsed and passed the game filter. -/
theorem parseFold_mem (g : Option (List Char)) :
    ∀ (msgs : List Message) (acc : ParseResults) (u : SuccessfulUpdate),
      u ∈ (msgs.foldl (parseStep g) acc).successful →
      u ∈ acc.successful ∨ ∃ m ∈ msgs, u.messageId = m.id ∧
        ∃ d, parseMessage m.content = some d ∧ u.data = d ∧
          ∀ gt, g = some gt → d.game = some gt := by
  intro msgs
  induction msgs with
  | nil => intro acc u h; exact Or.inl h
  | cons m t ih =>
    intro acc u h
    rw [List.foldl_cons] at h
    rcases ih (parseStep g acc m) u h with hacc | ⟨m2, hm2, rest⟩
    · unfold parseStep at hacc
      cases hp : parseMessage m.content with
      | none => rw [hp] at hacc; exact Or.inl hacc
      | some parsed =>
        rw [hp] at hacc
        cases hg : g with
        | some gt =>
          rw [hg] at hacc
          dsimp only at hacc
          by_cases hgame : parsed.game ≠ some gt
          · rw [if_pos hgame] at hacc; exact Or.inl hacc
          · rw [if_neg hgame] at hacc
            simp only [List.mem_append, List.mem_singleton] at hacc
            rcases hacc with h1 | h2
            · exact Or.inl h1
            · refine Or.inr ⟨m, by simp, ?_⟩
              subst h2
              refine ⟨rfl, parsed, hp, rfl, ?_⟩
              intro gt2 hgt2
              cases hgt2
              exact not_ne_iff.mp hgame
        | none =>
          rw [hg] at hacc
          dsimp only at hacc
          simp only [List.mem_append, List.mem_singleton] at hacc
          rcases hacc with h1 | h2
          · exact Or.inl h1
          · refine Or.inr ⟨m, by simp, ?_⟩
            subst h2
            exact ⟨rfl, parsed, hp, rfl, fun gt2 hgt2 => by cases hgt2⟩
    · exact Or.inr ⟨m2, by simp [hm2], rest⟩

/-- Claim C6 as amended (corrected): after the merge loop the cursor is
the message identifier of the last SUCCESSFULLY PARSED, game-matching
update (or the prior cursor when there is none) — a parsed-but-stale
update also advances it.  Messages that failed to parse or were filtered
out by game type never advance the cursor: every `successful` entry comes
from a message that parsed and matched the filter. -/
theorem claim_C6 (messages : List Message) (g : Option (List Char))
    (p0 : List Player) (c0 : Option (List Char)) :
    ((applyUpdates p0 c0 (parseMultipleUpdates messages g).successful).lastMessageId
      = match (parseMultipleUpdates messages g).successful.getLast? with
        | some u => some u.messageId
        | none => c0) ∧
    (∀ u ∈ (parseMultipleUpdates messages g).successful,
       ∃ m ∈ messages, u.messageId = m.id ∧ ∃ d, parseMessage m.content = some d ∧
         u.data = d ∧ ∀ gt, g = some gt → d.game = some gt) := by
  constructor
  · exact applyFold_last _ ⟨p0, c0, 0⟩
  · intro u hu
    rcases parseFold_mem g messages ⟨[], [], 0⟩ u hu with h | h
    · simp at h
    · exact h

/-- Witness for C6: on the concrete two-message run the cursor ends at
`m2`. -/
theorem claim_C6_witness :
    (applyUpdates [pExistC6] none
      (parseMultipleUpdates [mGoodC6, mStaleC6] (some gameMR)).successful).lastMessageId
      = some (str "m2") := by
  exact ((claim_C6 [mGoodC6, mStaleC6] (some gameMR) [pExistC6] none).1).trans (by decide)

/-- Witness for C10: appending a new user and, separately, the frame
property — replacing user 5's record leaves position 0 (another user)
untouched. -/
theorem claim_C10_witness :
    upsertPlayer [pDia2450] pFresh = ⟨[pDia2450, pFresh], true⟩ ∧
    (upsertPlayer [pDia2450, pExistC6] pIncNew).players.get? 0 = some pDia2450 := by
  constructor
  · exact (claim_C10 [pDia2450] pFresh).1 (by decide)
  · exact (claim_C10 [pDia2450, pExistC6] pIncNew).2 0 pDia2450 (by decide) (by decide)


theorem digitChar_isDig : ∀ m : Nat, isDig (digitChar m) = true := by
  intro m
  unfold digitChar
  split <;> decide

theorem charVal_digitChar : ∀ m : Nat, m < 10 → charVal (digitChar m) = m := by
  intro m hm
  match m, hm with
  | 0, _ => decide
  | 1, _ => decide
  | 2, _ => decide
  | 3, _ => decide
  | 4, _ => decide
  | 5, _ => decide
  | 6, _ => decide
  | 7, _ => decide
  | 8, _ => decide
  | 9, _ => decide

theorem natToStrAux_digits : ∀ (f n : Nat), ∀ c ∈ natToStrAux f n, isDig c = true := by
  intro f
  induction f with
  | zero => intro n c hc; cases hc
  | succ f ih =>
    intro n c hc
    unfold natToStrAux at hc
    by_cases h : n < 10
    · rw [if_pos h] at hc
      simp at hc
      subst hc
      exact digitChar_isDig n
    · rw [if_neg h] at hc
      rcases List.mem_append.mp hc with h1 | h1
      · exact ih (n / 10) c h1
      · simp at h1
        subst h1
        exact digitChar_isDig (n % 10)

theorem natToStr_digits : ∀ (n : Nat), ∀ c ∈ natToStr n, isDig c = true :=
  fun n => natToStrAux_digits (n + 1) n

theorem natToStrAux_ne_nil : ∀ (f n : Nat), n < f → natToStrAux f n ≠ [] := by
  intro f
  induction f with
  | zero => intro n h; omega
  | succ f ih =>
    intro n h
    unfold natToStrAux
    by_cases h10 : n < 10
    · rw [if_pos h10]; simp
    · rw [if_neg h10]; simp

theorem natToStr_ne_nil (n : Nat) : natToStr n ≠ [] :=
  natToStrAux_ne_nil (n + 1) n (by omega)

theorem digitsToNat_append_one (xs : List Char) (c : Char) :
    digitsToNat (xs ++ [c]) = 10 * digitsToNat xs + charVal c := by
  unfold digitsToNat
  rw [List.foldl_append]
  simp [Nat.mul_comm]

theorem digitsToNat_natToStrAux : ∀ (f n : Nat), n < f → digitsToNat (natToStrAux f n) = n := by
  intro f
  induction f with
  | zero => intro n h; omega
  | succ f ih =>
    intro n h
    unfold natToStrAux
    by_cases h10 : n < 10
    · rw [if_pos h10]
      show digitsToNat ([] ++ [digitChar n]) = n
      rw [digitsToNat_append_one]
      unfold digitsToNat
      simp
      exact charVal_digitChar n h10
    · rw [if_neg h10]
      rw [digitsToNat_append_one]
      rw [ih (n / 10) (by omega)]
      rw [charVal_digitChar (n % 10) (by omega)]
      omega

theorem digitsToNat_natToStr (n : Nat) : digitsToNat (natToStr n) = n :=
  digitsToNat_natToStrAux (n + 1) n (by omega)

theorem takeWhile_all {p : Char → Bool} : ∀ l : List Char, (∀ c ∈ l, p c = true) →
    l.takeWhile p = l := by
  intro l
  induction l with
  | nil => intro _; rfl
  | cons a t ih =>
    intro h
    rw [List.takeWhile_cons, h a (by simp)]
    rw [ih (fun c hc => h c (by simp [hc]))]
    simp

theorem isDig_not_isWS : ∀ c : Char, isDig c = true → isWS c = false := by
  intro c h
  by_contra hw
  rw [Bool.not_eq_false] at hw
  unfold isWS at hw
  simp only [Bool.or_eq_true, decide_eq_true_eq] at hw
  rcases hw with ((((h1 | h1) | h1) | h1) | h1) | h1 <;> (subst h1; cases h)

theorem jsTrimLeft_no (s : List Char) (hne : s ≠ [])
    (hh : ∀ c, s.head? = some c → isWS c = false) : jsTrimLeft s = s := by
  cases s with
  | nil => cases hne rfl
  | cons a t =>
    unfold jsTrimLeft
    rw [hh a rfl]
    simp

theorem parseDigitsPre_natToStr (n : Nat) : parseDigitsPre (natToStr n) = some n := by
  unfold parseDigitsPre
  rw [takeWhile_all (natToStr n) (natToStr_digits n)]
  rw [if_neg ?_]
  · rw [digitsToNat_natToStr]
  · simp only [List.isEmpty_iff]
    exact natToStr_ne_nil n

theorem jsParseInt_numToStr : ∀ v : Option Int, jsParseInt (numToStr v) = v := by
  intro v
  match v with
  | none => decide
  | some i =>
    simp only [numToStr]
    by_cases hneg : i < 0
    · rw [if_pos hneg]
      unfold jsParseInt
      rw [jsTrimLeft_no _ (by simp) (fun c hc => by cases hc; decide)]
      dsimp only
      rw [if_pos rfl]
      rw [parseDigitsPre_natToStr]
      simp
      omega
    · rw [if_neg hneg]
      unfold jsParseInt
      have hd := natToStr_digits i.toNat
      have hne : natToStr i.toNat ≠ [] := natToStr_ne_nil i.toNat
      rw [jsTrimLeft_no _ hne (fun c hc => by
        apply isDig_not_isWS
        apply hd
        exact List.mem_of_mem_head? hc)]
      cases hs : natToStr i.toNat with
      | nil => cases hne hs
      | cons a t =>
        have ha : isDig a = true := by
          apply hd; rw [hs]; simp
        dsimp only
        rw [if_neg (fun he => by subst he; cases ha)]
        rw [if_neg (fun he => by subst he; cases ha)]
        rw [← hs, parseDigitsPre_natToStr]
        simp
        omega

theorem jsSplitOn_cons (sep x : Char) (xs : List Char) :
    jsSplitOn sep (x :: xs) =
      if x = sep then [] :: jsSplitOn sep xs
      else match jsSplitOn sep xs with
        | r :: rs => (x :: r) :: rs
        | [] => [[x]] := rfl

theorem jsSplitOn_ne_nil (sep : Char) : ∀ s : List Char, jsSplitOn sep s ≠ [] := by
  intro s
  cases s with
  | nil => simp [jsSplitOn]
  | cons c t =>
    rw [jsSplitOn_cons]
    by_cases h : c = sep
    · rw [if_pos h]; simp
    · rw [if_neg h]
      cases hs : jsSplitOn sep t with
      | nil => simp
      | cons r rs => simp

theorem jsSplitOn_no_sep (sep : Char) : ∀ s : List Char, sep ∉ s →
    jsSplitOn sep s = [s] := by
  intro s
  induction s with
  | nil => intro _; rfl
  | cons c t ih =>
    intro h
    rw [jsSplitOn_cons]
    rw [if_neg (fun he => h (by rw [← he]; exact List.mem_cons_self c t))]
    rw [ih (fun ht => h (List.mem_cons_of_mem c ht))]

theorem jsSplitOn_append_cons (sep : Char) : ∀ (a rest : List Char), sep ∉ a →
    jsSplitOn sep (a ++ sep :: rest) = a :: jsSplitOn sep rest := by
  intro a
  induction a with
  | nil =>
    intro rest _
    show jsSplitOn sep (sep :: rest) = [] :: jsSplitOn sep rest
    rw [jsSplitOn_cons, if_pos rfl]
  | cons c t ih =>
    intro rest h
    show jsSplitOn sep (c :: (t ++ sep :: rest)) = (c :: t) :: jsSplitOn sep rest
    rw [jsSplitOn_cons]
    rw [if_neg (fun he => h (by rw [← he]; exact List.mem_cons_self c t))]
    rw [ih rest (fun ht => h (List.mem_cons_of_mem c ht))]

theorem jsSplitOn_joinSep (sep : Char) : ∀ L : List (List Char), L ≠ [] →
    (∀ l ∈ L, sep ∉ l) → jsSplitOn sep (joinSep sep L) = L := by
  intro L
  induction L with
  | nil => intro h; cases h rfl
  | cons a rest ih =>
    intro _ hall
    cases rest with
    | nil =>
      show jsSplitOn sep (joinSep sep [a]) = [a]
      unfold joinSep
      exact jsSplitOn_no_sep sep a (hall a (by simp))
    | cons b t =>
      rw [show joinSep sep (a :: b :: t) = a ++ sep :: joinSep sep (b :: t) from rfl]
      rw [jsSplitOn_append_cons sep a _ (hall a (by simp))]
      rw [ih (by simp) (fun l hl => hall l (by simp [hl]))]

theorem mem_joinSep (sep : Char) : ∀ (L : List (List Char)) (c : Char),
    c ∈ joinSep sep L → c = sep ∨ ∃ l ∈ L, c ∈ l := by
  intro L
  induction L with
  | nil => intro c hc; cases hc
  | cons a rest ih =>
    intro c hc
    cases rest with
    | nil =>
      refine Or.inr ⟨a, by simp, ?_⟩
      simpa [joinSep] using hc
    | cons b t =>
      rw [show joinSep sep (a :: b :: t) = a ++ sep :: joinSep sep (b :: t) from rfl] at hc
      rcases List.mem_append.mp hc with h | h
      · exact Or.inr ⟨a, by simp, h⟩
      · rcases List.mem_cons.mp h with h1 | h1
        · exact Or.inl h1
        · rcases ih c h1 with h2 | ⟨l, hl, hcl⟩
          · exact Or.inl h2
          · exact Or.inr ⟨l, by simp [hl], hcl⟩

theorem jsTrimLeft_eq_self (s : List Char) (h : headNotWS s = true) : jsTrimLeft s = s := by
  cases s with
  | nil => rfl
  | cons c t =>
    unfold jsTrimLeft
    unfold headNotWS at h
    rw [Bool.not_eq_true' ] at h
    rw [h]
    simp

theorem jsTrimRight_eq_self (s : List Char) (h : lastNotWS s = true) : jsTrimRight s = s := by
  unfold jsTrimRight
  rw [jsTrimLeft_eq_self s.reverse h]
  exact List.reverse_reverse s

theorem jsTrim_eq_self (s : List Char) (hh : headNotWS s = true) (hl : lastNotWS s = true) :
    jsTrim s = s := by
  unfold jsTrim
  rw [jsTrimLeft_eq_self s hh, jsTrimRight_eq_self s hl]

theorem jsTrimLeft_nl (s : List Char) : jsTrimLeft ('\n' :: s) = jsTrimLeft s := by
  show (if isWS '\n' = true then jsTrimLeft s else '\n' :: s) = jsTrimLeft s
  rw [show isWS '\n' = true from rfl]
  simp

theorem jsTrimRight_nl (s : List Char) : jsTrimRight (s ++ ['\n']) = jsTrimRight s := by
  unfold jsTrimRight
  rw [List.reverse_append]
  show (jsTrimLeft ('\n' :: s.reverse)).reverse = _
  rw [jsTrimLeft_nl]

theorem headNotWS_append_left (f y : List Char) (hf : headNotWS f = true) (hfne : f ≠ []) :
    headNotWS (f ++ y) = true := by
  cases f with
  | nil => cases hfne rfl
  | cons c t => exact hf

theorem headNotWS_append (f y : List Char) (hf : headNotWS f = true)
    (hy : headNotWS y = true) : headNotWS (f ++ y) = true := by
  cases f with
  | nil => exact hy
  | cons c t => exact hf

theorem lastNotWS_append_right (x y : List Char) (hy : lastNotWS y = true) (hyne : y ≠ []) :
    lastNotWS (x ++ y) = true := by
  unfold lastNotWS
  rw [List.reverse_append]
  exact headNotWS_append_left y.reverse x.reverse hy (by simpa using hyne)

theorem lastNotWS_append (x y : List Char) (hx : lastNotWS x = true)
    (hy : lastNotWS y = true) : lastNotWS (x ++ y) = true := by
  unfold lastNotWS
  rw [List.reverse_append]
  exact headNotWS_append y.reverse x.reverse hy hx

theorem joinSep_ne_nil (sep : Char) (a : List Char) (rest : List (List Char)) (ha : a ≠ []) :
    joinSep sep (a :: rest) ≠ [] := by
  cases rest with
  | nil => exact ha
  | cons b t =>
    show a ++ sep :: joinSep sep (b :: t) ≠ []
    simp

theorem headNotWS_joinSep (sep : Char) (a : List Char) (rest : List (List Char))
    (ha : a ≠ []) (hh : headNotWS a = true) :
    headNotWS (joinSep sep (a :: rest)) = true := by
  cases rest with
  | nil => exact hh
  | cons b t =>
    show headNotWS (a ++ sep :: joinSep sep (b :: t)) = true
    exact headNotWS_append_left a _ hh ha

theorem lastNotWS_joinSep (sep : Char) :
    ∀ L : List (List Char), (∀ l ∈ L, l ≠ [] ∧ lastNotWS l = true) → L ≠ [] →
      lastNotWS (joinSep sep L) = true := by
  intro L
  induction L with
  | nil => intro _ h; cases h rfl
  | cons a rest ih =>
    intro hall _
    cases rest with
    | nil => exact (hall a (by simp)).2
    | cons b t =>
      show lastNotWS (a ++ sep :: joinSep sep (b :: t)) = true
      apply lastNotWS_append_right
      · show lastNotWS (sep :: joinSep sep (b :: t)) = true
        have hj := ih (fun l hl => hall l (by simp [hl])) (by simp)
        have hne := joinSep_ne_nil sep b t (hall b (by simp)).1
        unfold lastNotWS
        rw [show (sep :: joinSep sep (b :: t)).reverse
          = (joinSep sep (b :: t)).reverse ++ [sep] by simp]
        exact headNotWS_append_left _ _ hj (by simpa using hne)
      · simp

theorem jsIndexOf_def (needle hay : List Char) :
    jsIndexOf needle hay = if begWith needle hay = true then some 0
      else match hay with
        | [] => none
        | _ :: t => (jsIndexOf needle t).map (· + 1) := by
  cases hay <;> rfl

theorem begWith_append_self : ∀ s t : List Char, begWith s (s ++ t) = true := by
  intro s
  induction s with
  | nil => intro t; rfl
  | cons c cs ih =>
    intro t
    show (if c = c then begWith cs (cs ++ t) else false) = true
    rw [if_pos rfl]
    exact ih t

theorem begWith_cons_ne (a b : Char) (as bs : List Char) (h : a ≠ b) :
    begWith (a :: as) (b :: bs) = false := by
  show (if a = b then begWith as bs else false) = false
  rw [if_neg h]

theorem jsIndexOf_self (needle hay : List Char) (h : begWith needle hay = true) :
    jsIndexOf needle hay = some 0 := by
  rw [jsIndexOf_def, if_pos h]

theorem jsIndexOf_scan (nt : List Char) : ∀ (h₁ r : List Char), '[' ∉ h₁ →
    jsIndexOf ('[' :: nt) (h₁ ++ '[' :: nt ++ r) = some h₁.length := by
  intro h₁
  induction h₁ with
  | nil =>
    intro r _
    rw [List.nil_append]
    exact jsIndexOf_self _ _ (begWith_append_self ('[' :: nt) r)
  | cons c t ih =>
    intro r hmem
    have hc : '[' ≠ c := fun he => hmem (by rw [he]; exact List.mem_cons_self c t)
    rw [show (c :: t) ++ '[' :: nt ++ r = c :: (t ++ '[' :: nt ++ r) from rfl]
    rw [jsIndexOf_def]
    rw [if_neg (by rw [begWith_cons_ne '[' c nt _ hc]; simp)]
    dsimp only
    rw [ih r (fun hm => hmem (List.mem_cons_of_mem c hm))]
    simp

theorem substring_mid (mid tail : List Char) :
    jsSubstring 9 (9 + mid.length) (DATA_START_MARKER ++ mid ++ tail) = mid := by
  simp only [jsSubstring]
  rw [min_eq_left (by omega), max_eq_right (by omega)]
  rw [List.append_assoc]
  rw [show (9 : Nat) = DATA_START_MARKER.length from rfl]
  rw [List.drop_left]
  rw [Nat.add_sub_cancel_left]
  exact List.take_left mid tail

theorem okChar_spec (c : Char) (h : okChar c = true) : c ≠ '\n' ∧ c ≠ '|' ∧ c ≠ '[' := by
  unfold okChar at h
  simp only [Bool.and_eq_true, Bool.not_eq_true', decide_eq_false_iff_not] at h
  exact ⟨h.1.1, h.1.2, h.2⟩

theorem isDig_props (c : Char) (h : isDig c = true) :
    okChar c = true ∧ c ≠ ' ' ∧ isWS c = false := by
  refine ⟨?_, ?_, isDig_not_isWS c h⟩
  · have h1 : c ≠ '\n' := fun he => by subst he; exact absurd h (by decide)
    have h2 : c ≠ '|' := fun he => by subst he; exact absurd h (by decide)
    have h3 : c ≠ '[' := fun he => by subst he; exact absurd h (by decide)
    unfold okChar
    simp [h1, h2, h3]
  · exact fun he => by subst he; exact absurd h (by decide)

theorem numToStr_chars (v : Option Int) :
    ∀ c ∈ numToStr v, okChar c = true ∧ c ≠ ' ' ∧ isWS c = false := by
  cases v with
  | none =>
    intro c hc
    simp [numToStr, str] at hc
    rcases hc with rfl | rfl | rfl <;> exact ⟨by decide, by decide, by decide⟩
  | some i =>
    intro c hc
    simp only [numToStr] at hc
    by_cases hneg : i < 0
    · rw [if_pos hneg] at hc
      rcases List.mem_cons.mp hc with rfl | hd
      · exact ⟨by decide, by decide, by decide⟩
      · exact isDig_props c (natToStr_digits _ c hd)
    · rw [if_neg hneg] at hc
      exact isDig_props c (natToStr_digits _ c hc)

theorem numToStr_ne_nil (v : Option Int) : numToStr v ≠ [] := by
  cases v with
  | none => simp [numToStr, str]
  | some i =>
    simp only [numToStr]
    by_cases h : i < 0
    · rw [if_pos h]; simp
    · rw [if_neg h]; exact natToStr_ne_nil i.toNat

theorem headNotWS_of_all (s : List Char) (h : ∀ c ∈ s, isWS c = false) :
    headNotWS s = true := by
  cases s with
  | nil => rfl
  | cons c t =>
    show (!isWS c) = true
    rw [h c (by simp)]
    rfl

theorem lastNotWS_of_all (s : List Char) (h : ∀ c ∈ s, isWS c = false) :
    lastNotWS s = true :=
  headNotWS_of_all s.reverse (fun c hc => h c (List.mem_reverse.mp hc))

theorem numToStr_edges (v : Option Int) :
    headNotWS (numToStr v) = true ∧ lastNotWS (numToStr v) = true :=
  ⟨headNotWS_of_all _ (fun c hc => (numToStr_chars v c hc).2.2),
   lastNotWS_of_all _ (fun c hc => (numToStr_chars v c hc).2.2)⟩

theorem cleanField_parts (s : List Char) (h : cleanField s = true) :
    (∀ c ∈ s, okChar c = true) ∧ headNotWS s = true ∧ lastNotWS s = true := by
  unfold cleanField at h
  simp only [Bool.and_eq_true, List.all_eq_true] at h
  exact ⟨h.1.1, h.1.2, h.2⟩

theorem nameOk_parts (s : List Char) (h : nameOk s = true) :
    cleanField s = true ∧ (∀ c ∈ s, c ≠ ' ') := by
  unfold nameOk at h
  simp only [Bool.and_eq_true, List.all_eq_true, Bool.not_eq_true', decide_eq_false_iff_not] at h
  exact h

theorem headNotWS_pipe (f y : List Char) (hf : headNotWS f = true) :
    headNotWS (f ++ '|' :: y) = true := by
  cases f with
  | nil => exact rfl
  | cons c t => exact hf

theorem headNotWS_joinSep_first (sep : Char) (hsep : isWS sep = false)
    (a : List Char) (rest : List (List Char)) (ha : headNotWS a = true) :
    headNotWS (joinSep sep (a :: rest)) = true := by
  cases rest with
  | nil => exact ha
  | cons b t =>
    show headNotWS (a ++ sep :: joinSep sep (b :: t)) = true
    cases a with
    | nil =>
      show (!isWS sep) = true
      rw [hsep]; rfl
    | cons c u => exact ha

theorem lastNotWS_joinSep_all (sep : Char) (hsep : isWS sep = false) :
    ∀ L : List (List Char), L ≠ [] → (∀ l ∈ L, lastNotWS l = true) →
      lastNotWS (joinSep sep L) = true := by
  intro L
  induction L with
  | nil => intro h _; cases h rfl
  | cons a rest ih =>
    intro _ hall
    cases rest with
    | nil => exact hall a (by simp)
    | cons b t =>
      show lastNotWS (a ++ sep :: joinSep sep (b :: t)) = true
      apply lastNotWS_append_right _ _ _ (by simp)
      unfold lastNotWS
      rw [List.reverse_cons]
      cases hj : (joinSep sep (b :: t)).reverse with
      | nil =>
        rw [List.nil_append]
        show (!isWS sep) = true
        rw [hsep]; rfl
      | cons x xs =>
        have hja := ih (by simp) (fun l hl => hall l (by simp [hl]))
        unfold lastNotWS at hja
        rw [hj] at hja
        exact headNotWS_append_left (x :: xs) [sep] hja (by simp)

theorem labelStr_some (r : List Char) (h : r ≠ []) : labelStr (some r) = r := by
  simp only [labelStr]
  rw [if_neg (by simpa using h)]

theorem rankField_chars (rk : Rank) (hn : nameOk rk.rank = true) :
    ∀ c ∈ rankField rk, c ≠ '\n' ∧ c ≠ '|' ∧ c ≠ '[' := by
  intro c hc
  unfold rankField at hc
  rcases List.mem_append.mp hc with h | h
  · exact okChar_spec c ((cleanField_parts _ (nameOk_parts _ hn).1).1 c h)
  · rcases List.mem_cons.mp h with rfl | h2
    · exact ⟨by decide, by decide, by decide⟩
    · have := (numToStr_chars rk.tier c h2).1
      exact okChar_spec c this

theorem rankField_split (rk : Rank) (hn : nameOk rk.rank = true) :
    jsSplitOn ' ' (rankField rk) = [rk.rank, numToStr rk.tier] := by
  unfold rankField
  rw [jsSplitOn_append_cons ' ' rk.rank _ (fun hm => ((nameOk_parts _ hn).2 ' ' hm) rfl)]
  rw [jsSplitOn_no_sep ' ' (numToStr rk.tier) (fun hm => (numToStr_chars rk.tier ' ' hm).2.1 rfl)]

theorem rankField_lastNotWS (rk : Rank) : lastNotWS (rankField rk) = true := by
  unfold rankField
  have h1 : lastNotWS (' ' :: numToStr rk.tier) = true := by
    rw [show (' ' :: numToStr rk.tier) = [' '] ++ numToStr rk.tier from rfl]
    exact lastNotWS_append_right _ _ (numToStr_edges rk.tier).2 (numToStr_ne_nil rk.tier)
  exact lastNotWS_append_right _ _ h1 (by simp)

theorem joinSep_two_ne (sep : Char) (a b : List Char) (t : List (List Char)) :
    joinSep sep (a :: b :: t) ≠ [] := by
  show a ++ sep :: joinSep sep (b :: t) ≠ []
  simp

theorem lineRT_two (g : List Char) (hg : g = gameMR ∨ g = gameOW) (p : Player)
    (hw : wfPlayer g p = true) :
    ∃ line, encodePlayerLine g p = some line ∧
      lineOkB line = true ∧ decodeLine (some g) line = some p := by
  obtain ⟨uid, rl, hn, crk, cv2, prk, pv2, lu, gm, rm⟩ := p
  unfold wfPlayer at hw
  rw [if_pos hg] at hw
  cases crk with
  | none => simp at hw
  | some cr =>
  cases prk with
  | none => simp at hw
  | some pr =>
  cases rl with
  | none => simp at hw
  | some r =>
  obtain ⟨crn, crt⟩ := cr
  obtain ⟨prn, prt⟩ := pr
  simp only [Bool.and_eq_true, decide_eq_true_eq] at hw
  obtain ⟨⟨⟨⟨⟨⟨⟨⟨h_uid, h_r⟩, h_rne⟩, h_crn⟩, h_prn⟩, h_lu⟩, h_hn⟩, h_gm⟩, h_rm⟩ := hw
  subst h_hn
  subst h_gm
  subst h_rm
  have hrne : r ≠ [] := by
    intro he
    subst he
    simp at h_rne
  have hOr : (some g = some gameMR ∨ some g = some gameOW) :=
    hg.imp (congrArg some) (congrArg some)
  have hpipes : ∀ l ∈ [uid, r, rankField ⟨crn, crt⟩, numToStr cv2,
      rankField ⟨prn, prt⟩, numToStr pv2, lu], '|' ∉ l := by
    intro l hl
    simp only [List.mem_cons, List.not_mem_nil, or_false] at hl
    rcases hl with rfl | rfl | rfl | rfl | rfl | rfl | rfl
    · exact fun hm => (okChar_spec '|' ((cleanField_parts _ h_uid).1 '|' hm)).2.1 rfl
    · exact fun hm => (okChar_spec '|' ((cleanField_parts _ h_r).1 '|' hm)).2.1 rfl
    · exact fun hm => (rankField_chars ⟨crn, crt⟩ h_crn '|' hm).2.1 rfl
    · exact fun hm => (okChar_spec '|' ((numToStr_chars cv2 '|' hm).1)).2.1 rfl
    · exact fun hm => (rankField_chars ⟨prn, prt⟩ h_prn '|' hm).2.1 rfl
    · exact fun hm => (okChar_spec '|' ((numToStr_chars pv2 '|' hm).1)).2.1 rfl
    · exact fun hm => (okChar_spec '|' ((cleanField_parts _ h_lu).1 '|' hm)).2.1 rfl
  have hsplit : jsSplitOn '|' (joinSep '|' [uid, r, rankField ⟨crn, crt⟩, numToStr cv2,
      rankField ⟨prn, prt⟩, numToStr pv2, lu])
      = [uid, r, rankField ⟨crn, crt⟩, numToStr cv2,
         rankField ⟨prn, prt⟩, numToStr pv2, lu] :=
    jsSplitOn_joinSep '|' _ (by simp) hpipes
  have henc : encodePlayerLine g
      ⟨uid, some r, none, some ⟨crn, crt⟩, cv2, some ⟨prn, prt⟩, pv2, lu, none, none⟩
      = some (joinSep '|' [uid, r, rankField ⟨crn, crt⟩, numToStr cv2,
          rankField ⟨prn, prt⟩, numToStr pv2, lu]) := by
    unfold encodePlayerLine
    rw [if_pos hg]
    dsimp only
    rw [labelStr_some r hrne]
  refine ⟨_, henc, ?_, ?_⟩
  · unfold lineOkB
    simp only [Bool.and_eq_true]
    refine ⟨⟨⟨?_, ?_⟩, ?_⟩, ?_⟩
    · rw [List.all_eq_true]
      intro c hc
      have hok : c ≠ '\n' ∧ c ≠ '[' := by
        rcases mem_joinSep '|' _ c hc with rfl | ⟨l, hl, hcl⟩
        · exact ⟨by decide, by decide⟩
        · simp only [List.mem_cons, List.not_mem_nil, or_false] at hl
          rcases hl with rfl | rfl | rfl | rfl | rfl | rfl | rfl
          · have := okChar_spec c ((cleanField_parts _ h_uid).1 c hcl)
            exact ⟨this.1, this.2.2⟩
          · have := okChar_spec c ((cleanField_parts _ h_r).1 c hcl)
            exact ⟨this.1, this.2.2⟩
          · have := rankField_chars ⟨crn, crt⟩ h_crn c hcl
            exact ⟨this.1, this.2.2⟩
          · have := okChar_spec c (numToStr_chars cv2 c hcl).1
            exact ⟨this.1, this.2.2⟩
          · have := rankField_chars ⟨prn, prt⟩ h_prn c hcl
            exact ⟨this.1, this.2.2⟩
          · have := okChar_spec c (numToStr_chars pv2 c hcl).1
            exact ⟨this.1, this.2.2⟩
          · have := okChar_spec c ((cleanField_parts _ h_lu).1 c hcl)
            exact ⟨this.1, this.2.2⟩
      simp [hok.1, hok.2]
    · exact headNotWS_joinSep_first '|' (by decide) uid _ (cleanField_parts _ h_uid).2.1
    · apply lastNotWS_joinSep_all '|' (by decide) _ (by simp)
      intro l hl
      simp only [List.mem_cons, List.not_mem_nil, or_false] at hl
      rcases hl with rfl | rfl | rfl | rfl | rfl | rfl | rfl
      · exact (cleanField_parts _ h_uid).2.2
      · exact (cleanField_parts _ h_r).2.2
      · exact rankField_lastNotWS ⟨crn, crt⟩
      · exact (numToStr_edges cv2).2
      · exact rankField_lastNotWS ⟨prn, prt⟩
      · exact (numToStr_edges pv2).2
      · exact (cleanField_parts _ h_lu).2.2
    · have := joinSep_two_ne '|' uid r [rankField ⟨crn, crt⟩, numToStr cv2,
        rankField ⟨prn, prt⟩, numToStr pv2, lu]
      simpa [List.isEmpty_iff] using this
  · simp only [decodeLine]
    rw [if_pos hOr]
    rw [hsplit]
    rw [if_neg (by simp)]
    have hmk1 : mkRank (rankField ⟨crn, crt⟩) = ⟨crn, crt⟩ := by
      unfold mkRank
      rw [rankField_split ⟨crn, crt⟩ h_crn]
      simp [jsParseInt_numToStr]
    have hmk2 : mkRank (rankField ⟨prn, prt⟩) = ⟨prn, prt⟩ := by
      unfold mkRank
      rw [rankField_split ⟨prn, prt⟩ h_prn]
      simp [jsParseInt_numToStr]
    simp [hmk1, hmk2, jsParseInt_numToStr]

theorem lineRT_DL (p : Player) (hw : wfPlayer gameDL p = true) :
    ∃ line, encodePlayerLine gameDL p = some line ∧
      lineOkB line = true ∧ decodeLine (some gameDL) line = some p := by
  obtain ⟨uid, rl, hn, crk, cv2, prk, pv2, lu, gm, rm⟩ := p
  unfold wfPlayer at hw
  rw [if_neg (by decide), if_pos rfl] at hw
  cases crk with
  | none => simp at hw
  | some cr =>
  cases hn with
  | none => simp at hw
  | some h0 =>
  obtain ⟨crn, crt⟩ := cr
  simp only [Bool.and_eq_true, decide_eq_true_eq] at hw
  obtain ⟨⟨⟨⟨⟨⟨⟨⟨⟨h_uid, h_h⟩, h_hne⟩, h_crn⟩, h_lu⟩, h_rl⟩, h_prk⟩, h_pv⟩, h_gm⟩, h_rm⟩ := hw
  subst h_rl
  subst h_prk
  subst h_pv
  subst h_gm
  subst h_rm
  have hne0 : h0 ≠ [] := by
    intro he
    subst he
    simp at h_hne
  have hpipes : ∀ l ∈ [uid, h0, rankField ⟨crn, crt⟩, numToStr cv2, lu], '|' ∉ l := by
    intro l hl
    simp only [List.mem_cons, List.not_mem_nil, or_false] at hl
    rcases hl with rfl | rfl | rfl | rfl | rfl
    · exact fun hm => (okChar_spec '|' ((cleanField_parts _ h_uid).1 '|' hm)).2.1 rfl
    · exact fun hm => (okChar_spec '|' ((cleanField_parts _ h_h).1 '|' hm)).2.1 rfl
    · exact fun hm => (rankField_chars ⟨crn, crt⟩ h_crn '|' hm).2.1 rfl
    · exact fun hm => (okChar_spec '|' ((numToStr_chars cv2 '|' hm).1)).2.1 rfl
    · exact fun hm => (okChar_spec '|' ((cleanField_parts _ h_lu).1 '|' hm)).2.1 rfl
  have hsplit : jsSplitOn '|' (joinSep '|' [uid, h0, rankField ⟨crn, crt⟩, numToStr cv2, lu])
      = [uid, h0, rankField ⟨crn, crt⟩, numToStr cv2, lu] :=
    jsSplitOn_joinSep '|' _ (by simp) hpipes
  have henc : encodePlayerLine gameDL
      ⟨uid, none, some h0, some ⟨crn, crt⟩, cv2, none, none, lu, none, none⟩
      = some (joinSep '|' [uid, h0, rankField ⟨crn, crt⟩, numToStr cv2, lu]) := by
    unfold encodePlayerLine
    rw [if_neg (by decide), if_pos rfl]
    dsimp only
    rw [labelStr_some h0 hne0]
  refine ⟨_, henc, ?_, ?_⟩
  · unfold lineOkB
    simp only [Bool.and_eq_true]
    refine ⟨⟨⟨?_, ?_⟩, ?_⟩, ?_⟩
    · rw [List.all_eq_true]
      intro c hc
      have hok : c ≠ '\n' ∧ c ≠ '[' := by
        rcases mem_joinSep '|' _ c hc with rfl | ⟨l, hl, hcl⟩
        · exact ⟨by decide, by decide⟩
        · simp only [List.mem_cons, List.not_mem_nil, or_false] at hl
          rcases hl with rfl | rfl | rfl | rfl | rfl
          · have := okChar_spec c ((cleanField_parts _ h_uid).1 c hcl)
            exact ⟨this.1, this.2.2⟩
          · have := okChar_spec c ((cleanField_parts _ h_h).1 c hcl)
            exact ⟨this.1, this.2.2⟩
          · have := rankField_chars ⟨crn, crt⟩ h_crn c hcl
            exact ⟨this.1, this.2.2⟩
          · have := okChar_spec c (numToStr_chars cv2 c hcl).1
            exact ⟨this.1, this.2.2⟩
          · have := okChar_spec c ((cleanField_parts _ h_lu).1 c hcl)
            exact ⟨this.1, this.2.2⟩
      simp [hok.1, hok.2]
    · exact headNotWS_joinSep_first '|' (by decide) uid _ (cleanField_parts _ h_uid).2.1
    · apply lastNotWS_joinSep_all '|' (by decide) _ (by simp)
      intro l hl
      simp only [List.mem_cons, List.not_mem_nil, or_false] at hl
      rcases hl with rfl | rfl | rfl | rfl | rfl
      · exact (cleanField_parts _ h_uid).2.2
      · exact (cleanField_parts _ h_h).2.2
      · exact rankField_lastNotWS ⟨crn, crt⟩
      · exact (numToStr_edges cv2).2
      · exact (cleanField_parts _ h_lu).2.2
    · have := joinSep_two_ne '|' uid h0 [rankField ⟨crn, crt⟩, numToStr cv2, lu]
      simpa [List.isEmpty_iff] using this
  · simp only [decodeLine]
    rw [if_neg (by decide), if_pos True.intro]
    rw [hsplit]
    rw [if_neg (by simp)]
    have hmk1 : mkRank (rankField ⟨crn, crt⟩) = ⟨crn, crt⟩ := by
      unfold mkRank
      rw [rankField_split ⟨crn, crt⟩ h_crn]
      simp [jsParseInt_numToStr]
    simp [hmk1, jsParseInt_numToStr]

theorem lineRT (g : List Char) (hg : g = gameMR ∨ g = gameOW ∨ g = gameDL) (p : Player)
    (hw : wfPlayer g p = true) :
    ∃ line, encodePlayerLine g p = some line ∧
      lineOkB line = true ∧ decodeLine (some g) line = some p := by
  rcases hg with h | h | h
  · exact lineRT_two g (Or.inl h) p hw
  · exact lineRT_two g (Or.inr h) p hw
  · subst h
    exact lineRT_DL p hw

theorem mapM_lines (g : List Char) (hg : g = gameMR ∨ g = gameOW ∨ g = gameDL) :
    ∀ S : List Player, (∀ p ∈ S, wfPlayer g p = true) →
      ∃ ls : List (List Char), S.mapM (encodePlayerLine g) = some ls ∧
        ls.length = S.length ∧
        (∀ l ∈ ls, lineOkB l = true) ∧
        ls.map (decodeLine (some g)) = S.map some := by
  intro S
  induction S with
  | nil => intro _; exact ⟨[], rfl, rfl, by simp, rfl⟩
  | cons p t ih =>
    intro hall
    obtain ⟨line, henc, hok, hdec⟩ := lineRT g hg p (hall p (by simp))
    obtain ⟨ls, hmap, hlen, hoks, hdecs⟩ := ih (fun q hq => hall q (by simp [hq]))
    refine ⟨line :: ls, ?_, by simp [hlen], ?_, ?_⟩
    · rw [List.mapM_cons, henc, hmap]
      rfl
    · intro l hl
      rcases List.mem_cons.mp hl with rfl | h2
      · exact hok
      · exact hoks l h2
    · simp only [List.map_cons, hdec, hdecs]

theorem begWith_cons_self (a : Char) (as bs : List Char) :
    begWith (a :: as) (a :: bs) = begWith as bs := by
  show (if a = a then begWith as bs else false) = begWith as bs
  rw [if_pos rfl]

theorem blob_shape (l1 l2 pb : List Char) :
    joinSep '\n' [DATA_START_MARKER, l1, l2, pb, DATA_END_MARKER]
      = DATA_START_MARKER ++ (stateBlobMid l1 l2 pb ++ DATA_END_MARKER) := by
  show DATA_START_MARKER ++
      ('\n' :: (l1 ++ ('\n' :: (l2 ++ ('\n' :: (pb ++ ('\n' :: DATA_END_MARKER))))))) = _
  unfold stateBlobMid
  simp

theorem begWith_refl : ∀ s : List Char, begWith s s = true := by
  intro s
  induction s with
  | nil => rfl
  | cons c t ih =>
    rw [begWith_cons_self]
    exact ih

theorem jsIndexOf_scanP (nt : List Char) : ∀ (h₁ rest : List Char), '[' ∉ h₁ →
    begWith nt rest = true →
    jsIndexOf ('[' :: nt) (h₁ ++ ('[' :: rest)) = some h₁.length := by
  intro h₁
  induction h₁ with
  | nil =>
    intro rest _ hb
    rw [List.nil_append]
    apply jsIndexOf_self
    rw [begWith_cons_self]
    exact hb
  | cons c t ih =>
    intro rest hmem hb
    have hc : '[' ≠ c := fun he => hmem (by rw [he]; exact List.mem_cons_self c t)
    rw [show (c :: t) ++ ('[' :: rest) = c :: (t ++ ('[' :: rest)) from rfl]
    rw [jsIndexOf_def]
    rw [if_neg (by rw [begWith_cons_ne '[' c nt _ hc]; simp)]
    dsimp only
    rw [ih rest (fun hm => hmem (List.mem_cons_of_mem c hm)) hb]
    simp

theorem endIdx_blob (l1 l2 pb : List Char)
    (h1 : '[' ∉ l1) (h2 : '[' ∉ l2) (h3 : '[' ∉ pb) :
    jsIndexOf DATA_END_MARKER (DATA_START_MARKER ++ (stateBlobMid l1 l2 pb ++ DATA_END_MARKER))
      = some (9 + (stateBlobMid l1 l2 pb).length) := by
  have hnomid : '[' ∉ str "DATA:v1]" ++ stateBlobMid l1 l2 pb := by
    intro hm
    rcases List.mem_append.mp hm with h | h
    · revert h; decide
    · simp [stateBlobMid, h1, h2, h3] at h
  have hform : DATA_START_MARKER ++ (stateBlobMid l1 l2 pb ++ DATA_END_MARKER)
      = '[' :: ((str "DATA:v1]" ++ stateBlobMid l1 l2 pb) ++ ('[' :: str "/DATA]")) := by
    show str "[DATA:v1]" ++ (stateBlobMid l1 l2 pb ++ str "[/DATA]") = _
    simp [str]
  rw [hform]
  rw [jsIndexOf_def]
  rw [if_neg ?hbeg]
  case hbeg =>
    rw [show DATA_END_MARKER = '[' :: ('/' :: str "DATA]") from rfl]
    rw [show ('[' :: ((str "DATA:v1]" ++ stateBlobMid l1 l2 pb) ++ ('[' :: str "/DATA]")))
        = '[' :: ('D' :: ((str "ATA:v1]" ++ stateBlobMid l1 l2 pb) ++ ('[' :: str "/DATA]")))
        from by simp [str]]
    rw [begWith_cons_self]
    rw [begWith_cons_ne '/' 'D' _ _ (by decide)]
    simp
  dsimp only
  rw [show DATA_END_MARKER = '[' :: str "/DATA]" from rfl]
  rw [jsIndexOf_scanP (str "/DATA]") _ _ hnomid (begWith_refl _)]
  simp [str, stateBlobMid]
  omega

theorem cleanField_no (s : List Char) (h : cleanField s = true) :
    '\n' ∉ s ∧ '[' ∉ s := by
  have hall := (cleanField_parts s h).1
  constructor
  · intro hm
    exact (okChar_spec _ (hall _ hm)).1 rfl
  · intro hm
    exact (okChar_spec _ (hall _ hm)).2.2 rfl

theorem lineOkB_parts (l : List Char) (h : lineOkB l = true) :
    '\n' ∉ l ∧ '[' ∉ l ∧ headNotWS l = true ∧ lastNotWS l = true ∧ l ≠ [] := by
  unfold lineOkB at h
  simp only [Bool.and_eq_true, List.all_eq_true, Bool.not_eq_true',
    decide_eq_false_iff_not] at h
  refine ⟨fun hm => ?_, fun hm => ?_, h.1.1.2, h.1.2, ?_⟩
  · have := h.1.1.1 _ hm
    simp at this
  · have := h.1.1.1 _ hm
    simp at this
  · have h2 := h.2
    simpa using h2

theorem lastStr_eq (v : List Char) (hne : v.isEmpty = false) : lastStr (some v) = v := by
  simp [lastStr, hne]

theorem cursor_rt (c : Option (List Char)) (hc : cleanCursor c = true) :
    lastStr c ≠ [] ∧ cleanField (lastStr c) = true ∧
      (if lastStr c = str "none" then (none : Option (List Char))
       else some (lastStr c)) = c := by
  cases c with
  | none =>
    refine ⟨by decide, by decide, ?_⟩
    have he : lastStr none = str "none" := rfl
    rw [he, if_pos rfl]
  | some v =>
    unfold cleanCursor at hc
    simp only [Bool.and_eq_true, Bool.not_eq_true', decide_eq_false_iff_not] at hc
    obtain ⟨⟨hcf, hne⟩, hnn⟩ := hc
    rw [lastStr_eq v hne]
    refine ⟨by simpa using hne, hcf, ?_⟩
    rw [if_neg hnn]

theorem matchTag_append (tag rest : List Char) (hne : rest ≠ [])
    (hnl : '\n' ∉ rest) : matchTag tag (tag ++ rest) = some rest := by
  simp only [matchTag]
  rw [List.drop_left]
  rw [begWith_append_self]
  have hcr : rest.contains '\n' = false := by
    cases h : rest.contains '\n'
    · rfl
    · exact absurd (List.mem_of_elem_eq_true h) hnl
  rw [hcr]
  simp [hne]

theorem trim_blobMid_nil (l1 l2 : List Char)
    (h1h : headNotWS l1 = true) (h1ne : l1 ≠ [])
    (h2l : lastNotWS l2 = true) (h2ne : l2 ≠ []) :
    jsTrim (stateBlobMid l1 l2 []) = l1 ++ '\n' :: l2 := by
  unfold stateBlobMid jsTrim
  rw [jsTrimLeft_nl]
  rw [jsTrimLeft_eq_self _ (headNotWS_append_left _ _
    (headNotWS_append_left l1 _ h1h h1ne) (by simp [h1ne]))]
  rw [jsTrimRight_nl]
  rw [show l1 ++ ('\n' :: (l2 ++ ('\n' :: []))) = (l1 ++ '\n' :: l2) ++ ['\n'] by simp]
  rw [jsTrimRight_nl]
  apply jsTrimRight_eq_self
  apply lastNotWS_append_right l1 ('\n' :: l2) _ (by simp)
  rw [show ('\n' :: l2) = ['\n'] ++ l2 from rfl]
  exact lastNotWS_append_right _ _ h2l h2ne

theorem trim_blobMid_cons (l1 l2 pb : List Char)
    (h1h : headNotWS l1 = true) (h1ne : l1 ≠ [])
    (hpl : lastNotWS pb = true) (hpne : pb ≠ []) :
    jsTrim (stateBlobMid l1 l2 pb) = l1 ++ '\n' :: (l2 ++ '\n' :: pb) := by
  unfold stateBlobMid jsTrim
  rw [jsTrimLeft_nl]
  rw [jsTrimLeft_eq_self _ (headNotWS_append_left _ _
    (headNotWS_append_left l1 _ h1h h1ne) (by simp [h1ne]))]
  rw [jsTrimRight_nl]
  apply jsTrimRight_eq_self
  apply lastNotWS_append_right l1 _ _ (by simp)
  rw [show ('\n' :: (l2 ++ ('\n' :: pb))) = ['\n'] ++ (l2 ++ ('\n' :: pb)) from rfl]
  apply lastNotWS_append_right _ _ _ (by simp)
  apply lastNotWS_append_right l2 _ _ (by simp)
  rw [show ('\n' :: pb) = ['\n'] ++ pb from rfl]
  exact lastNotWS_append_right _ _ hpl hpne

theorem decodePlayerData_joinSep (g : List Char) (ls : List (List Char)) (S : List Player)
    (hls : ls ≠ []) (hok : ∀ l ∈ ls, lineOkB l = true)
    (hdec : ls.map (decodeLine (some g)) = S.map some) :
    decodePlayerData (joinSep '\n' ls) (some g) = S := by
  obtain ⟨a, rest, rfl⟩ : ∃ a rest, ls = a :: rest := by
    cases ls with
    | nil => exact absurd rfl hls
    | cons a rest => exact ⟨a, rest, rfl⟩
  have hap := lineOkB_parts a (hok a (by simp))
  have htr : jsTrim (joinSep '\n' (a :: rest)) = joinSep '\n' (a :: rest) := by
    apply jsTrim_eq_self
    · exact headNotWS_joinSep '\n' a rest hap.2.2.2.2 hap.2.2.1
    · exact lastNotWS_joinSep '\n' (a :: rest)
        (fun l hl => ⟨(lineOkB_parts l (hok l hl)).2.2.2.2,
          (lineOkB_parts l (hok l hl)).2.2.2.1⟩) (by simp)
  unfold decodePlayerData
  rw [htr]
  rw [if_neg (by simpa using joinSep_ne_nil '\n' a rest hap.2.2.2.2)]
  rw [jsSplitOn_joinSep '\n' (a :: rest) (by simp)
    (fun l hl => (lineOkB_parts l (hok l hl)).1)]
  rw [List.filter_eq_self.mpr ?hf]
  case hf =>
    intro l hl
    have hp := lineOkB_parts l (hok l hl)
    rw [jsTrim_eq_self l hp.2.2.1 hp.2.2.2.1]
    simpa using hp.2.2.2.2
  rw [hdec]
  rw [show (S.map some).filterMap id = S.filterMap some from List.filterMap_map some id S]
  exact List.filterMap_some S

/-- C2: round trip of the message-as-database codec.  For each supported
game, a cursor that is absent or a clean nonempty string other than the
literal `none`, and players that are well formed for that game
(`wfPlayer`: clean fields, single-token rank names, the game's own field
set), `encodeState` succeeds and `decodeState` recovers exactly the game
type, the cursor and the player list.  (`claim_C2_cex` shows the claim's
unconditional version is false: a multi-word rank name such as
`One Above All` is truncated by decode and its tier becomes `NaN`.) -/
theorem claim_C2 (c : Option (List Char)) (S : List Player) (g : List Char)
    (hg : g = gameMR ∨ g = gameOW ∨ g = gameDL)
    (hc : cleanCursor c = true)
    (hS : ∀ p ∈ S, wfPlayer g p = true) :
    ∃ blob, encodeState c S g = some blob ∧ decodeState blob = ⟨some g, c, S⟩ := by
  obtain ⟨ls, hmap, hlen, hoks, hdecs⟩ := mapM_lines g hg S hS
  obtain ⟨hlne, hlcf, hcrt⟩ := cursor_rt c hc
  have hgprop : '[' ∉ g ∧ '\n' ∉ g ∧ g ≠ [] := by
    rcases hg with rfl | rfl | rfl <;> exact ⟨by decide, by decide, by decide⟩
  have henc : encodeState c S g
      = some (joinSep '\n' [DATA_START_MARKER, str "GAME:" ++ g,
          str "LAST:" ++ lastStr c, joinSep '\n' ls, DATA_END_MARKER]) := by
    unfold encodeState encodePlayerData
    rw [hmap]
    rfl
  refine ⟨_, henc, ?_⟩
  rw [blob_shape]
  have h1 : '[' ∉ str "GAME:" ++ g := by
    intro hm
    rcases List.mem_append.mp hm with h | h
    · revert h; decide
    · exact hgprop.1 h
  have hnl1 : '\n' ∉ str "GAME:" ++ g := by
    intro hm
    rcases List.mem_append.mp hm with h | h
    · revert h; decide
    · exact hgprop.2.1 h
  have hlc := cleanField_no _ hlcf
  have h2 : '[' ∉ str "LAST:" ++ lastStr c := by
    intro hm
    rcases List.mem_append.mp hm with h | h
    · revert h; decide
    · exact hlc.2 h
  have hnl2 : '\n' ∉ str "LAST:" ++ lastStr c := by
    intro hm
    rcases List.mem_append.mp hm with h | h
    · revert h; decide
    · exact hlc.1 h
  have h3 : '[' ∉ joinSep '\n' ls := by
    intro hm
    rcases mem_joinSep '\n' ls '[' hm with he | ⟨l, hl, hcl⟩
    · exact absurd he (by decide)
    · exact (lineOkB_parts l (hoks l hl)).2.1 hcl
  have h1h : headNotWS (str "GAME:" ++ g) = true := rfl
  have h1ne : (str "GAME:" ++ g) ≠ [] := by simp [str]
  have h2l : lastNotWS (str "LAST:" ++ lastStr c) = true :=
    lastNotWS_append_right _ _ (cleanField_parts _ hlcf).2.2 hlne
  have h2ne : (str "LAST:" ++ lastStr c) ≠ [] := by simp [str]
  have hne0 : (DATA_START_MARKER ++
      (stateBlobMid (str "GAME:" ++ g) (str "LAST:" ++ lastStr c) (joinSep '\n' ls)
        ++ DATA_END_MARKER)).isEmpty = false := rfl
  simp only [decodeState]
  rw [if_neg (by simp [hne0])]
  rw [jsIndexOf_self DATA_START_MARKER _ (begWith_append_self _ _)]
  rw [endIdx_blob _ _ _ h1 h2 h3]
  dsimp only
  rw [show (0 + DATA_START_MARKER.length : Nat) = 9 from rfl]
  rw [← List.append_assoc]
  rw [substring_mid]
  cases ls with
  | nil =>
    have hS0 : S = [] := by
      cases S with
      | nil => rfl
      | cons p t => simp at hlen
    subst hS0
    rw [show joinSep '\n' ([] : List (List Char)) = [] from rfl]
    rw [trim_blobMid_nil _ _ h1h h1ne h2l h2ne]
    rw [jsSplitOn_append_cons '\n' _ _ hnl1]
    rw [jsSplitOn_no_sep '\n' _ hnl2]
    dsimp only [List.get?, Option.bind, List.drop]
    rw [matchTag_append (str "GAME:") g hgprop.2.2 hgprop.2.1]
    rw [matchTag_append (str "LAST:") (lastStr c) hlne hlc.1]
    dsimp only
    rw [hcrt]
    rfl
  | cons a rest =>
    have hSne : S ≠ [] := by
      intro h
      subst h
      simp at hlen
    have hpl : lastNotWS (joinSep '\n' (a :: rest)) = true :=
      lastNotWS_joinSep '\n' (a :: rest)
        (fun l hl => ⟨(lineOkB_parts l (hoks l hl)).2.2.2.2,
          (lineOkB_parts l (hoks l hl)).2.2.2.1⟩) (by simp)
    have hpne : joinSep '\n' (a :: rest) ≠ [] :=
      joinSep_ne_nil '\n' a rest (lineOkB_parts a (hoks a (by simp))).2.2.2.2
    rw [trim_blobMid_cons _ _ _ h1h h1ne hpl hpne]
    rw [show (str "GAME:" ++ g) ++ '\n' :: ((str "LAST:" ++ lastStr c) ++
        '\n' :: joinSep '\n' (a :: rest))
      = joinSep '\n' ((str "GAME:" ++ g) :: (str "LAST:" ++ lastStr c) :: a :: rest)
      from rfl]
    rw [jsSplitOn_joinSep '\n' _ (by simp) ?hnosep]
    case hnosep =>
      intro l hl
      rcases List.mem_cons.mp hl with rfl | hl2
      · exact hnl1
      rcases List.mem_cons.mp hl2 with rfl | hl3
      · exact hnl2
      · exact (lineOkB_parts l (hoks l hl3)).1
    dsimp only [List.get?, Option.bind, List.drop]
    rw [matchTag_append (str "GAME:") g hgprop.2.2 hgprop.2.1]
    rw [matchTag_append (str "LAST:") (lastStr c) hlne hlc.1]
    dsimp only
    rw [hcrt]
    rw [decodePlayerData_joinSep g (a :: rest) S (by simp) hoks hdecs]

/-- Concrete instance of the round trip: one Marvel Rivals record and a
plain numeric cursor encode and decode back exactly. -/
theorem claim_C2_witness :
    cleanCursor (some (str "123")) = true ∧
    (∀ p ∈ [pDia2450], wfPlayer gameMR p = true) ∧
    ∃ blob, encodeState (some (str "123")) [pDia2450] gameMR = some blob ∧
      decodeState blob = ⟨some gameMR, some (str "123"), [pDia2450]⟩ :=
  ⟨by decide, by decide,
   claim_C2 (some (str "123")) [pDia2450] gameMR (Or.inl rfl) (by decide) (by decide)⟩


end LB
